import Mathlib

/-!
Verification development for the Swarky drawing-archival pipeline.

The Python sources are shallowly embedded:
* filenames are lists of characters (`Name := List Char`);
* the STANDARD filename regex `BASE_NAME` (swarky_core.py:63) becomes a
  total parser over 20-character names (all capture groups of the regex
  have fixed width; the two extension alternatives both have width 3);
* the decision core of `_process_candidate` (swarky_pipeline.py) becomes a
  pure function from the candidate name and the directory listing to a
  `Decision`;
* filesystem effects are modelled over association lists from path names
  to contents.
-/

namespace Swarky

/-- A filename, as a list of characters. -/
abbrev Name := List Char

/-- Lowercase every character (models Python `str.lower()` on ASCII data). -/
def lowerL (l : Name) : Name := l.map Char.toLower

/-- `startsList p l` is true when `p` is an initial segment of `l`
(models `str.startswith` / the `docno*` glob pattern after lowering). -/
def startsList : Name → Name → Bool
  | [], _ => true
  | _ :: _, [] => false
  | a :: as, b :: bs => a == b && startsList as bs

/-- `endsList s l` is true when `s` is a final segment of `l`
(models `str.endswith`). -/
def endsList (s l : Name) : Bool := startsList s.reverse l.reverse

/-- Numeric value of a digit string (models Python `int(...)` on the
two-digit revision groups, swarky_pipeline.py:101). -/
def digitsToNat (l : Name) : Nat :=
  l.foldl (fun a c => 10 * a + (c.toNat - '0'.toNat)) 0

/-- The part of a stem strictly before the first `'-'`; the whole stem when
no `'-'` occurs.  Models `docno.split("-", 1)[0]` (swarky_iss_fiv.py:82). -/
def beforeDash : Name → Name
  | [] => []
  | c :: t => if c = '-' then [] else c :: beforeDash t

/-- Character class `\w` of the `BASE_NAME` regex, restricted to ASCII. -/
def isWordChar (c : Char) : Bool := c.isAlpha || c.isDigit || c == '_'

/-- The extension group `(tif|pdf)` of `BASE_NAME`, case-insensitive. -/
def extOk (e : Name) : Bool :=
  lowerL e == "tif".data || lowerL e == "pdf".data

/-- Parsed STANDARD drawing name: the capture groups of `BASE_NAME`
(swarky_core.py:63), letters preserved exactly as captured. -/
structure DrawingName where
  format : Char
  location : Char
  docDigits : Name
  rev : Name
  sheet : Name
  metric : Char
  ext : Name
deriving DecidableEq

/-- `BASE_NAME.fullmatch` on a name.  The regex
`D(\w)(\w)(\d{6})R(\d{2})S(\d{2})(\w)\.(tif|pdf)` with `re.IGNORECASE`
accepts exactly the 20-character names of the shape checked here; every
group is returned exactly as captured. -/
def parseStandardChars : Name → Option DrawingName
  | [c0, c1, c2, c3, c4, c5, c6, c7, c8, c9, c10, c11, c12, c13, c14, c15,
     c16, c17, c18, c19] =>
    if (c0 == 'D' || c0 == 'd')
        && isWordChar c1 && isWordChar c2
        && c3.isDigit && c4.isDigit && c5.isDigit
        && c6.isDigit && c7.isDigit && c8.isDigit
        && (c9 == 'R' || c9 == 'r') && c10.isDigit && c11.isDigit
        && (c12 == 'S' || c12 == 's') && c13.isDigit && c14.isDigit
        && isWordChar c15
        && c16 == '.'
        && extOk [c17, c18, c19]
    then some ⟨c1, c2, [c3, c4, c5, c6, c7, c8], [c10, c11], [c13, c14],
               c15, [c17, c18, c19]⟩
    else none
  | _ => none

/-- Reassembly of a STANDARD name from its parsed components, as
`'D' + format + location + doc_digits + 'R' + rev + 'S' + sheet + metric
+ '.' + ext` (the spec's round-trip construction, built on
`_docno_from_match`, swarky_core.py:67). -/
def rebuild (dn : DrawingName) : Name :=
  'D' :: dn.format :: dn.location ::
    (dn.docDigits ++ 'R' :: dn.rev ++ 'S' :: dn.sheet ++
      dn.metric :: '.' :: dn.ext)

/-- `_docno_from_match` (swarky_core.py:67): `f"D{g1}{g2}{g3}"`. -/
def docnoOf (dn : DrawingName) : Name :=
  'D' :: dn.format :: dn.location :: dn.docDigits

/-- Numeric revision of the new file (`new_rev_i = int(new_rev)`,
swarky_pipeline.py:101). -/
def newRevN (dn : DrawingName) : Nat := digitsToNat dn.rev

/-! ## Location mapper (swarky_core.py:203-232, swarky_logic.py:35-83) -/

/-- One row of `LOCATION_MAP`: `(folder, log_name, subloc, doctype, lang)`. -/
structure LocInfo where
  folder : String
  log_name : String
  subloc : String
  doctype : String
  lang : String
deriving DecidableEq

/-- `LOCATION_MAP` (identical in swarky_core.py:203 and swarky_logic.py:35),
keyed by `(location_letter, first_doc_digit)` with `'*'` as wildcard. -/
def LOCATION_MAP : List ((Char × Char) × LocInfo) :=
  [ (('M', '*'), ⟨"costruttivi", "Costruttivi", "m", "DETAIL", "Italian"⟩),
    (('K', '*'), ⟨"bozzetti", "Bozzetti", "k", "Customer Drawings", "English"⟩),
    (('F', '*'), ⟨"fornitori", "Fornitori", "f", "Vendor Supplied Data", "English"⟩),
    (('T', '*'), ⟨"tenute_meccaniche", "T_meccaniche", "t", "Customer Drawings", "English"⟩),
    (('E', '*'), ⟨"sezioni", "Sezioni", "s", "Customer Drawings", "English"⟩),
    (('S', '*'), ⟨"sezioni", "Sezioni", "s", "Customer Drawings", "English"⟩),
    (('N', '*'), ⟨"marcianise", "Marcianise", "n", "DETAIL", "Italian"⟩),
    (('P', '*'), ⟨"preventivi", "Preventivi", "p", "Customer Drawings", "English"⟩),
    (('*', '4'), ⟨"pID_ELETTRICI", "Pid_Elettrici", "m", "Customer Drawings", "Italian"⟩),
    (('*', '5'), ⟨"piping", "Piping", "m", "Customer Drawings", "Italian"⟩) ]

/-- `DEFAULT_LOCATION` (swarky_core.py:215). -/
def DEFAULT_LOCATION : LocInfo :=
  ⟨"unknown", "Unknown", "m", "Customer Drawings", "English"⟩

/-- `LOCATION_MAP.get(k)`: dictionary lookup (keys are distinct, so the
association-list search is the dict lookup). -/
def dictGet (k : Char × Char) : Option LocInfo :=
  (LOCATION_MAP.find? (fun p => p.1 == k)).map (·.2)

/-- Row resolution of `map_location` in swarky_core.py:221-226, the module
the processing pipeline imports from (swarky_pipeline.py:13): exact
`(loc, digit)`, then `('*', digit)`, then `(loc, '*')`, then the default.
`u` is the uppercased location letter, `first` the first document digit. -/
def resolveCore (u first : Char) : LocInfo :=
  (((dictGet (u, first)).orElse fun _ => dictGet ('*', first)).orElse
      fun _ => dictGet (u, '*')).getD DEFAULT_LOCATION

/-- Row resolution of `map_location` in swarky_logic.py:73-78 (and the
identical copy in the capitalised Swarky_logic.py): exact `(loc, digit)`,
then `(loc, '*')`, then `('*', digit)`, then the default.  This variant is
not imported by swarky_pipeline.py. -/
def resolveLogic (u first : Char) : LocInfo :=
  (((dictGet (u, first)).orElse fun _ => dictGet (u, '*')).orElse
      fun _ => dictGet ('*', first)).getD DEFAULT_LOCATION

/-- `map_location(m, cfg)` of swarky_core.py:217 restricted to the table
row it selects: `first = m.group(3)[0]`, `l2 = m.group(2).upper()`. -/
def map_location_core (dn : DrawingName) : LocInfo :=
  resolveCore (Char.toUpper dn.location) (dn.docDigits.headD '0')

/-- `map_location(m, cfg)` of swarky_logic.py:70 restricted to the table
row it selects. -/
def map_location_logic (dn : DrawingName) : LocInfo :=
  resolveLogic (Char.toUpper dn.location) (dn.docDigits.headD '0')

/-! ## Same-document index (swarky_core.py:70-98) -/

/-- One parsed archive entry, the tuple
`(m.group(4), name, m.group(6).upper(), m.group(5))` produced by
`_parse_prefixed` (swarky_core.py:70-77). -/
structure Entry where
  rev : Name
  nm : Name
  met : Char
  sh : Name
deriving DecidableEq

/-- Numeric revision of an archive entry (`int(r)`,
swarky_pipeline.py:124-126). -/
def revN (e : Entry) : Nat := digitsToNat e.rev

/-- The tuple `(m.group(4), nm, m.group(6).upper(), m.group(5))` built by
`_parse_prefixed` for one matching name. -/
def mkEntry (nm : Name) (mm : DrawingName) : Entry :=
  ⟨mm.rev, nm, Char.toUpper mm.metric, mm.sheet⟩

/-- `_parse_prefixed` (swarky_core.py:70): keep the `BASE_NAME` matches,
as `(rev, name, metric.upper(), sheet)` tuples. -/
def parse_prefixed (names : List Name) : List Entry :=
  names.filterMap fun nm => (parseStandardChars nm).map (mkEntry nm)

/-- Drawing-extension filter of `_iter_docno_files` (swarky_core.py:83):
`nm.lower().endswith((".tif", ".pdf"))`. -/
def hasDrwExt (nm : Name) : Bool :=
  endsList ".tif".data (lowerL nm) || endsList ".pdf".data (lowerL nm)

/-- `_iter_docno_files` (swarky_core.py:79): names of the directory that
match the `docno*` glob (case-insensitive on Windows) and carry a drawing
extension. -/
def iterDocnoFiles (dir : List Name) (docno : Name) : List Name :=
  dir.filter fun nm => startsList (lowerL docno) (lowerL nm) && hasDrwExt nm

/-- `_list_same_doc_prefisso` (swarky_core.py:86): the parsed entries of
the directory sharing the document-number prefix. -/
def sameDocEntries (dir : List Name) (docno : Name) : List Entry :=
  parse_prefixed (iterDocnoFiles dir docno)

/-- The `same_sheet` restriction of `_process_candidate`
(swarky_pipeline.py:113-114). -/
def sameSheetEntries (dir : List Name) (docno : Name) (sheet : Name) :
    List Entry :=
  (sameDocEntries dir docno).filter fun e => e.sh == sheet

/-- `_list_nonstandard_same_doc` (swarky_core.py:93): names sharing the
prefix that do not match `BASE_NAME`. -/
def legacyNames (dir : List Name) (docno : Name) : List Name :=
  (iterDocnoFiles dir docno).filter fun nm => (parseStandardChars nm).isNone

/-! ## Revision reconciler (swarky_pipeline.py:95-174, 203-213)

The locals of `_process_candidate` become small named functions of the
candidate's parsed name `dn` and of the same-sheet entry list `ss`. -/

/-- Measurement group `{M, I}` membership (swarky_pipeline.py:98). -/
def isMI (c : Char) : Bool := c == 'M' || c == 'I'

/-- Measurement group `{D, N}` membership (swarky_pipeline.py:99). -/
def isDN (c : Char) : Bool := c == 'D' || c == 'N'

/-- `new_group == "MI"` (swarky_pipeline.py:100):
`new_metric = m.group(6).upper()`. -/
def gMIof (dn : DrawingName) : Bool := isMI (Char.toUpper dn.metric)

/-- `same_sheet_mi` (swarky_pipeline.py:124). -/
def ssMIof (ss : List Entry) : List Entry := ss.filter fun e => isMI e.met

/-- `same_sheet_dn` (swarky_pipeline.py:125). -/
def ssDNof (ss : List Entry) : List Entry := ss.filter fun e => isDN e.met

/-- `same_sheet_same_metric` (swarky_pipeline.py:126). -/
def ssOwnOf (dn : DrawingName) (ss : List Entry) : List Entry :=
  ss.filter fun e => e.met == Char.toUpper dn.metric

/-- `_max_rev` (swarky_pipeline.py:128): `max(revs, default=None)`. -/
def maxRev? : List Entry → Option Nat
  | [] => none
  | e :: es =>
    match maxRev? es with
    | none => some (revN e)
    | some m => some (Nat.max (revN e) m)

/-- `other_entries` (swarky_pipeline.py:136). -/
def otherEsOf (dn : DrawingName) (ss : List Entry) : List Entry :=
  if gMIof dn then ssDNof ss else ssMIof ss

/-- `other_max` (swarky_pipeline.py:137). -/
def otherMaxOf (dn : DrawingName) (ss : List Entry) : Option Nat :=
  maxRev? (otherEsOf dn ss)

/-- `own_max` (swarky_pipeline.py:133). -/
def ownMaxOf (dn : DrawingName) (ss : List Entry) : Option Nat :=
  maxRev? (ssOwnOf dn ss)

/-- `o is not None and r < o` — the guard of the two `Revisione
Precendente` branches (swarky_pipeline.py:138, 145). -/
def ltOpt (r : Nat) (o : Option Nat) : Bool :=
  match o with
  | some m => decide (r < m)
  | none => false

/-- `next((nm for (rv, nm, _m) in es if rv == max), "")`
(swarky_pipeline.py:139, 146): name of the first entry at the maximum. -/
def refAtMax (es : List Entry) : Name :=
  match maxRev? es with
  | some m => ((es.find? fun e => revN e == m).map (·.nm)).getD []
  | none => []

/-- `same_rev_mi` (swarky_pipeline.py:152). -/
def sameRevMIof (dn : DrawingName) (ss : List Entry) : List Entry :=
  (ssMIof ss).filter fun e => revN e == newRevN dn

/-- `same_rev_dn` (swarky_pipeline.py:153). -/
def sameRevDNof (dn : DrawingName) (ss : List Entry) : List Entry :=
  (ssDNof ss).filter fun e => revN e == newRevN dn

/-- `to_storico_same` (swarky_pipeline.py:206-209): names of the same-metric
entries demoted to the historical tree after an accept. -/
def demSameOf (dn : DrawingName) (ss : List Entry) : List Name :=
  match ownMaxOf dn ss with
  | none => ((ssOwnOf dn ss).filter fun e => decide (revN e < newRevN dn)).map (·.nm)
  | some m =>
    if newRevN dn > m then
      ((ssOwnOf dn ss).filter fun e => decide (revN e < newRevN dn)).map (·.nm)
    else []

/-- `to_storico_other` (swarky_pipeline.py:210-213): names of the
opposite-group entries demoted after an accept. -/
def demOtherOf (dn : DrawingName) (ss : List Entry) : List Name :=
  match otherMaxOf dn ss with
  | some m =>
    if newRevN dn > m then
      ((otherEsOf dn ss).filter fun e => decide (revN e < newRevN dn)).map (·.nm)
    else []
  | none => []

/-- Outcome of one candidate.  `reject` means the file is moved to
`ERROR_DIR` (`move_to(p, cfg.ERROR_DIR)`), `pariRev` to `PARI_REV_DIR`;
`accept` archives the file and demotes the listed names to the historical
tree (removing them from the live archive directory). -/
inductive Decision where
  | reject (reason : String) (ref : Name)
  | pariRev
  | accept (info : Option Name) (demSame demOther : List Name)
deriving DecidableEq

/-- The decision chain of `_process_candidate` from the `Pari Revisione`
check on (swarky_pipeline.py:117-174), with the demotion lists of
swarky_pipeline.py:203-213 attached to the accept outcome.  `info` is the
reference of the informational `Metrica Diversa` event
(swarky_pipeline.py:161-163). -/
def decideOn (name : Name) (dn : DrawingName) (ss : List Entry) : Decision :=
  if ss.any (fun e => e.nm == name && e.rev == dn.rev) then
    .pariRev
  else if ltOpt (newRevN dn) (otherMaxOf dn ss) then
    .reject "Revisione Precendente" (refAtMax (otherEsOf dn ss))
  else if ltOpt (newRevN dn) (ownMaxOf dn ss) then
    .reject "Revisione Precendente" (refAtMax (ssOwnOf dn ss))
  else if gMIof dn then
    match sameRevDNof dn ss with
    | e :: _ => .reject "Conflitto Metrica (DN a pari revisione)" e.nm
    | [] =>
      .accept (((sameRevMIof dn ss).find? fun e =>
          e.met != Char.toUpper dn.metric).map (·.nm))
        (demSameOf dn ss) (demOtherOf dn ss)
  else
    match sameRevMIof dn ss with
    | e :: _ => .reject "Conflitto Metrica (MI a pari revisione)" e.nm
    | [] =>
      match (sameRevDNof dn ss).find? fun e =>
          e.met != Char.toUpper dn.metric with
      | some e => .reject "Conflitto Metrica (D/N a pari revisione)" e.nm
      | none => .accept none (demSameOf dn ss) (demOtherOf dn ss)

/-- `m.group(1).upper() in "ABCDE"` (swarky_pipeline.py:82). -/
def checkFormat (dn : DrawingName) : Bool :=
  (['A', 'B', 'C', 'D', 'E'] : List Char).contains (Char.toUpper dn.format)

/-- `m.group(2).upper() in "MKFTESNP"` (swarky_pipeline.py:86). -/
def checkLocation (dn : DrawingName) : Bool :=
  (['M', 'K', 'F', 'T', 'E', 'S', 'N', 'P'] : List Char).contains
    (Char.toUpper dn.location)

/-- `m.group(6).upper() in "MIDN"` (swarky_pipeline.py:90). -/
def checkMetric (dn : DrawingName) : Bool :=
  (['M', 'I', 'D', 'N'] : List Char).contains (Char.toUpper dn.metric)

/-- `_process_candidate` (swarky_pipeline.py:47-174) as a decision: regex
match, the three letter validations, then the revision reconciler over the
same-document same-sheet index of the target archive directory `dir`.
The orientation oracle (which precedes parsing in the source) is outside
the model; `dir` is the listing of `dir_tif_loc`. -/
def process_candidate (name : Name) (dir : List Name) : Decision :=
  match parseStandardChars name with
  | none => .reject "Nome File Errato" []
  | some dn =>
    if !checkFormat dn then .reject "Formato Errato" []
    else if !checkLocation dn then .reject "Location Errata" []
    else if !checkMetric dn then .reject "Metrica Errata" []
    else decideOn name dn (sameSheetEntries dir (docnoOf dn) dn.sheet)

/-- The directories touched by one candidate: the target archive directory
and the reject/duplicate holding areas (contents as name lists). -/
structure PassState where
  archive : List Name
  rejectDir : List Name
  dupDir : List Name
deriving DecidableEq

/-- Effect of one candidate on the directories, under a fault-free
filesystem: a reject moves the file to `ERROR_DIR`, a `Pari Revisione`
duplicate to `PARI_REV_DIR`; an accept moves the file into the archive
directory and removes the demoted names (`move_to_storico_safe` either
moves them to the historical tree or, when refused, `move_to` sends them
to `ERROR_DIR` — either way they leave the archive,
swarky_pipeline.py:183-249) together with the legacy non-standard names
(swarky_pipeline.py:183-201). -/
def runPass (name : Name) (st : PassState) : PassState :=
  match process_candidate name st.archive with
  | .reject _ _ => { st with rejectDir := st.rejectDir ++ [name] }
  | .pariRev => { st with dupDir := st.dupDir ++ [name] }
  | .accept _ dS dO =>
    match parseStandardChars name with
    | some dn =>
      { st with archive :=
          (st.archive.filter fun nm =>
            !(dS.contains nm || dO.contains nm ||
              (legacyNames st.archive (docnoOf dn)).contains nm)) ++ [name] }
    | none => st

/-- Number of live files of one measurement group sitting at that group's
maximum revision, for a given `(doc_no, sheet)` (the quantity of invariant
I1/P2 of the spec). -/
def groupCountAtMax (dir : List Name) (docno : Name) (sheet : Name)
    (miGroup : Bool) : Nat :=
  let es := (sameSheetEntries dir docno sheet).filter fun e =>
    if miGroup then isMI e.met else isDN e.met
  match maxRev? es with
  | none => 0
  | some m => (es.filter fun e => revN e == m).length

/-! ## EDI sidecar builder (swarky_core.py:346-475) -/

/-- `_edi_body` (swarky_core.py:346-399): the ordered `.DESEDI` line list.
The optional `now` argument of the source is made explicit. -/
def ediBody (document_no rev sheet description actual_size uom doctype lang
    file_name file_type order_number now : String) : List String :=
  [ "[Database]",
    "ServerName=ORMDB33",
    "ProjectName=FPD Engineering",
    "[DatabaseFields]",
    "DocumentNo=" ++ document_no,
    "DocumentRev=" ++ rev,
    "SheetNumber=" ++ sheet,
    "Description=" ++ description,
    "ActualSize=" ++ actual_size,
    "PumpModel=(UNKNOWN)",
    "OEM=Flowserve",
    "PumpSize=",
    "OrderNumber=" ++ order_number,
    "SerialNumber=",
    "Document_Type=" ++ doctype,
    "DrawingClass=COMMERCIAL",
    "DesignCenter=Desio, Italy",
    "OEMSite=Desio, Italy",
    "OEMDrawingNumber=",
    "UOM=" ++ uom,
    "DWGLanguage=" ++ lang,
    "CurrentRevision=Y",
    "EnteredBy=10150286",
    "Notes=",
    "NonEnglishDesc=",
    "SupersededBy=",
    "NumberOfStages=",
    "[DrawingInfo]",
    "DocumentNo=" ++ document_no,
    "SheetNumber=" ++ sheet,
    (if doctype = "DETAIL" then "Document_Type=Detail"
     else "Document_Type=Customer Drawings"),
    "DocumentRev=" ++ rev,
    "FileName=" ++ file_name,
    "FileType=" ++ file_type,
    "Currentdate=" ++ now ]

/-- `Path(file_name).stem` on the character list: everything before the
last `'.'`; the whole name when it has no `'.'`. -/
def stemChars (l : Name) : Name :=
  let r := l.reverse
  let i := r.takeWhile fun c => c ≠ '.'
  if i.length = r.length then l else (r.drop (i.length + 1)).reverse

/-- `Path(file_name).suffix` on the character list: the last `'.'` and
what follows it; empty when the name has no `'.'`. -/
def suffixChars (l : Name) : Name :=
  let r := l.reverse
  let i := r.takeWhile fun c => c ≠ '.'
  if i.length = r.length then [] else '.' :: i.reverse

/-- `Path(file_name).stem`: the filename without its final extension. -/
def stemOf (s : String) : String := String.mk (stemChars s.data)

/-- `"Pdf" if Path(file_name).suffix.lower() == ".pdf" else "Tiff"`
(swarky_core.py:445-446). -/
def fileTypeOf (s : String) : String :=
  if lowerL (suffixChars s.data) = ".pdf".data then "Pdf" else "Tiff"

/-- The body written by `write_edi` for an `ISS_BASENAME` match
(swarky_core.py:418-429): `docno = f"G{g1}{g2}{g3}"`, description
`" Impeller Specification Sheet"`, size `A4`, UOM `Metric`, doctype
`DETAIL`, language `English`, file type `Pdf`, empty order number. -/
def issClassicBody (g1 g2 g3 rev sheet file_name now : String) :
    List String :=
  ediBody ("G" ++ g1 ++ g2 ++ g3) rev sheet " Impeller Specification Sheet"
    "A4" "Metric" "DETAIL" "English" file_name "Pdf" "" now

/-- The body written by `write_edi` for an `ISS_BASENAME_2` (ISS_MARKED)
file via `iss_loading` (swarky_iss_fiv.py:76-92 into
swarky_core.py:431-461): the captured stem is the document number, the
order number is `docno.split("-", 1)[0]` — the part of the stem before
the first `-`, or the whole stem when it has no `-`. -/
def issMarkedBody (stem : Name) (rev sheet file_name now : String) :
    List String :=
  ediBody (String.mk stem) rev sheet " Impeller Specification Sheet"
    "A4" "Metric" "DETAIL" "English" file_name (fileTypeOf file_name)
    (String.mk (beforeDash stem)) now

/-! ## Filesystem effector models -/

/-- A directory (or a small filesystem): paths mapped to contents. -/
abbrev Dir := List (String × String)

/-- Content lookup in a directory. -/
def lookupD (d : Dir) (k : String) : Option String :=
  (d.find? fun p => p.1 == k).map (·.2)

/-- Replace the binding of `k` (models an overwriting copy such as
`shutil.copy2` or `os.replace` onto an existing destination), appending
when absent. -/
def upsert (d : Dir) (k : String) (v : String) : Dir :=
  match d with
  | [] => [(k, v)]
  | (k', v') :: t => if k' = k then (k, v) :: t else (k', v') :: upsert t k v

/-- `move_to` (swarky_core.py:166-174): `shutil.copy2` onto
`dst_dir / src.name` — overwriting any file already there — then unlink the
source.  Result: the updated destination directory and the source file
content after the move (`none` = removed). -/
def move_to_model (srcName content : String) (dst : Dir) :
    Dir × Option String :=
  (upsert dst srcName content, none)

/-- `move_to_storico_safe` (swarky_core.py:176-194): refuse with
`(False, 0)` when `dst / src.name` exists; otherwise copy and unlink,
returning `(True, 1)`; a copy failure (`copyOk = false`) returns
`(False, 8)` and leaves both files in place.  Result:
`(dst dir, remaining src content, copied, rc)`. -/
def move_to_storico_safe_core (srcName content : String) (dst : Dir)
    (copyOk : Bool) : Dir × Option String × Bool × Nat :=
  if (dst.find? fun p => p.1 == srcName).isSome then
    (dst, some content, false, 0)
  else if copyOk then ((srcName, content) :: dst, none, true, 1)
  else (dst, some content, false, 8)

/-- `DefaultIOOps.move_to_storico_safe` (swarky_io.py:230-246): no
existence check — `os.replace(src, dst)` (and its `_buffered_copy`
fallback, which opens `dst` with `"wb"`) replaces any file already at the
destination and reports `(True, 1)`.  Modelled on the success path. -/
def move_to_storico_safe_io (srcName content : String) (dst : Dir) :
    Dir × Option String × Bool × Nat :=
  (upsert dst srcName content, none, true, 1)

/-- Target path of the sidecar: `out_dir / (Path(file_name).stem +
".DESEDI")` (swarky_core.py:415). -/
def ediPath (outDir fileName : String) : String :=
  outDir ++ "/" ++ stemOf fileName ++ ".DESEDI"

/-- `"\n".join(lines) + "\n"` (`write_lines`, swarky_core.py:196-199). -/
def joinedLines (lines : List String) : String :=
  String.intercalate "\n" lines ++ "\n"

/-- `write_edi` (swarky_core.py:401-417) as a filesystem transition: if the
sidecar path already exists the call returns with the filesystem untouched
(before computing any body); otherwise `write_lines` creates the file with
the body. -/
def writeEdiFS (fs : Dir) (outDir fileName : String) (body : List String) :
    Dir :=
  if (fs.find? fun p => p.1 == ediPath outDir fileName).isSome then fs
  else fs ++ [(ediPath outDir fileName, joinedLines body)]

/-! ## Parser inversion -/

/-- Any name accepted by the STANDARD parser has exactly the 20-character
shape of the `BASE_NAME` regex; the parsed components are the captured
characters, and the literal positions hold `D`/`R`/`S` up to case. -/
theorem parse_shape {l : Name} {dn : DrawingName}
    (h : parseStandardChars l = some dn) :
    ∃ c0 c9 c12,
      (c0 = 'D' ∨ c0 = 'd') ∧ (c9 = 'R' ∨ c9 = 'r') ∧
      (c12 = 'S' ∨ c12 = 's') ∧ extOk dn.ext = true ∧
      dn.docDigits.length = 6 ∧ dn.rev.length = 2 ∧
      dn.sheet.length = 2 ∧ dn.ext.length = 3 ∧
      l = c0 :: dn.format :: dn.location ::
        (dn.docDigits ++ c9 :: dn.rev ++ c12 :: dn.sheet ++
          dn.metric :: '.' :: dn.ext) := by
  obtain _ | ⟨c0, l⟩ := l; · exact Option.noConfusion h
  obtain _ | ⟨c1, l⟩ := l; · exact Option.noConfusion h
  obtain _ | ⟨c2, l⟩ := l; · exact Option.noConfusion h
  obtain _ | ⟨c3, l⟩ := l; · exact Option.noConfusion h
  obtain _ | ⟨c4, l⟩ := l; · exact Option.noConfusion h
  obtain _ | ⟨c5, l⟩ := l; · exact Option.noConfusion h
  obtain _ | ⟨c6, l⟩ := l; · exact Option.noConfusion h
  obtain _ | ⟨c7, l⟩ := l; · exact Option.noConfusion h
  obtain _ | ⟨c8, l⟩ := l; · exact Option.noConfusion h
  obtain _ | ⟨c9, l⟩ := l; · exact Option.noConfusion h
  obtain _ | ⟨c10, l⟩ := l; · exact Option.noConfusion h
  obtain _ | ⟨c11, l⟩ := l; · exact Option.noConfusion h
  obtain _ | ⟨c12, l⟩ := l; · exact Option.noConfusion h
  obtain _ | ⟨c13, l⟩ := l; · exact Option.noConfusion h
  obtain _ | ⟨c14, l⟩ := l; · exact Option.noConfusion h
  obtain _ | ⟨c15, l⟩ := l; · exact Option.noConfusion h
  obtain _ | ⟨c16, l⟩ := l; · exact Option.noConfusion h
  obtain _ | ⟨c17, l⟩ := l; · exact Option.noConfusion h
  obtain _ | ⟨c18, l⟩ := l; · exact Option.noConfusion h
  obtain _ | ⟨c19, l⟩ := l; · exact Option.noConfusion h
  obtain _ | ⟨c20, l⟩ := l
  · have h' : (if (c0 == 'D' || c0 == 'd')
        && isWordChar c1 && isWordChar c2
        && c3.isDigit && c4.isDigit && c5.isDigit
        && c6.isDigit && c7.isDigit && c8.isDigit
        && (c9 == 'R' || c9 == 'r') && c10.isDigit && c11.isDigit
        && (c12 == 'S' || c12 == 's') && c13.isDigit && c14.isDigit
        && isWordChar c15
        && c16 == '.'
        && extOk [c17, c18, c19]
      then some (⟨c1, c2, [c3, c4, c5, c6, c7, c8], [c10, c11],
          [c13, c14], c15, [c17, c18, c19]⟩ : DrawingName)
      else none) = some dn := h
    by_cases hc : ((c0 == 'D' || c0 == 'd')
        && isWordChar c1 && isWordChar c2
        && c3.isDigit && c4.isDigit && c5.isDigit
        && c6.isDigit && c7.isDigit && c8.isDigit
        && (c9 == 'R' || c9 == 'r') && c10.isDigit && c11.isDigit
        && (c12 == 'S' || c12 == 's') && c13.isDigit && c14.isDigit
        && isWordChar c15
        && c16 == '.'
        && extOk [c17, c18, c19]) = true
    · rw [if_pos hc] at h'
      obtain rfl : (⟨c1, c2, [c3, c4, c5, c6, c7, c8], [c10, c11],
          [c13, c14], c15, [c17, c18, c19]⟩ : DrawingName) = dn :=
        Option.some.inj h'
      simp only [Bool.and_eq_true, Bool.or_eq_true, beq_iff_eq,
        and_assoc] at hc
      obtain ⟨h0, -, -, -, -, -, -, -, -, h9, -, -, h12, -, -, -, h16,
        hext⟩ := hc
      subst h16
      exact ⟨c0, c9, c12, h0, h9, h12, hext, rfl, rfl, rfl, rfl, rfl⟩
    · rw [if_neg hc] at h'
      exact Option.noConfusion h'
  · exact Option.noConfusion h

/-- A list of length 2 is a two-element list. -/
theorem list_len_two {α : Type} {l : List α} (h : l.length = 2) :
    ∃ a b, l = [a, b] := by
  rcases l with _ | ⟨a, _ | ⟨b, _ | ⟨c, t⟩⟩⟩
  · simp at h
  · simp at h
  · exact ⟨a, b, rfl⟩
  · simp at h

/-- A list of length 3 is a three-element list. -/
theorem list_len_three {α : Type} {l : List α} (h : l.length = 3) :
    ∃ a b c, l = [a, b, c] := by
  rcases l with _ | ⟨a, _ | ⟨b, _ | ⟨c, _ | ⟨d, t⟩⟩⟩⟩
  · simp at h
  · simp at h
  · simp at h
  · exact ⟨a, b, c, rfl⟩
  · simp at h

/-- A list of length 6 is a six-element list. -/
theorem list_len_six {α : Type} {l : List α} (h : l.length = 6) :
    ∃ a b c d e f, l = [a, b, c, d, e, f] := by
  rcases l with _ | ⟨a, _ | ⟨b, _ | ⟨c, _ | ⟨d, _ | ⟨e, _ | ⟨f, _ | ⟨g, t⟩⟩⟩⟩⟩⟩⟩
  · simp at h
  · simp at h
  · simp at h
  · simp at h
  · simp at h
  · simp at h
  · exact ⟨a, b, c, d, e, f, rfl⟩
  · simp at h

/-- C9 (corrected): the STANDARD parser is case-insensitive also on the
literal characters `D`, `R` and `S`, so a name such as
`dam123456r00s01m.tif` is accepted but reassembles (with uppercase
literals) to `Dam123456R00S01m.tif` — the round trip does not return the
original name. -/
theorem c9_roundtrip_case_counterexample :
    parseStandardChars "dam123456r00s01m.tif".data =
      some ⟨'a', 'm', "123456".data, "00".data, "01".data, 'm',
        "tif".data⟩ ∧
    rebuild ⟨'a', 'm', "123456".data, "00".data, "01".data, 'm',
        "tif".data⟩ ≠ "dam123456r00s01m.tif".data := by
  decide

/-- C9 (amended): for every name accepted by the STANDARD parser whose
literal characters at positions 0, 9 and 12 are the uppercase `D`, `R`
and `S`, reassembling
`'D' + format + location + doc_digits + 'R' + rev + 'S' + sheet + metric
+ '.' + ext` from the parsed components returns exactly the original
name, preserving its letter case (the captured groups are stored
verbatim; only the three literal positions are rebuilt as uppercase). -/
theorem c9_roundtrip_upper_literals (l : Name) (dn : DrawingName)
    (hp : parseStandardChars l = some dn)
    (hD : l.getD 0 ' ' = 'D') (hR : l.getD 9 ' ' = 'R')
    (hS : l.getD 12 ' ' = 'S') : rebuild dn = l := by
  obtain ⟨f, lo, dd, rv, sh, met, ex⟩ := dn
  obtain ⟨c0, c9, c12, -, -, -, -, hdd, hrev, hsh, hex, hl⟩ :=
    parse_shape hp
  obtain ⟨d1, d2, d3, d4, d5, d6, hd⟩ := list_len_six hdd
  obtain ⟨r1, r2, hr⟩ := list_len_two hrev
  obtain ⟨s1, s2, hs⟩ := list_len_two hsh
  obtain ⟨e1, e2, e3, he⟩ := list_len_three hex
  simp only at hd hr hs he
  subst hd hr hs he hl
  have h0' : c0 = 'D' := hD
  have h9' : c9 = 'R' := hR
  have h12' : c12 = 'S' := hS
  subst h0' h9' h12'
  rfl

/-- Witness for `c9_roundtrip_upper_literals` at
`DAM123456R02S01M.tif`. -/
theorem c9_roundtrip_upper_literals_witness :
    parseStandardChars "DAM123456R02S01M.tif".data =
      some ⟨'A', 'M', "123456".data, "02".data, "01".data, 'M',
        "tif".data⟩ ∧
    rebuild ⟨'A', 'M', "123456".data, "02".data, "01".data, 'M',
        "tif".data⟩ = "DAM123456R02S01M.tif".data :=
  ⟨by decide,
   c9_roundtrip_upper_literals "DAM123456R02S01M.tif".data _
     (by decide) (by decide) (by decide) (by decide)⟩

/-! ## C2: location-mapping resolution order -/

/-- C2 (counterexample): for a drawing with location letter `M` and first
document digit `4` (name `DAM423456R01S01M.tif`), the `map_location`
imported by the processing pipeline (from swarky_core) returns the
`('*', '4')` row `pID_ELETTRICI`, not the `(M, '*')` row `costruttivi`
that the claimed `(loc, '*')`-before-`('*', digit)` order would select.
The `(loc, '*')`-first order exists only in swarky_logic's variant, which
the pipeline does not import. -/
theorem c2_map_location_order_counterexample :
    map_location_core ⟨'A', 'M', "423456".data, "01".data, "01".data,
        'M', "tif".data⟩ =
      ⟨"pID_ELETTRICI", "Pid_Elettrici", "m", "Customer Drawings",
        "Italian"⟩ ∧
    map_location_core ⟨'A', 'M', "423456".data, "01".data, "01".data,
        'M', "tif".data⟩ ≠
      ⟨"costruttivi", "Costruttivi", "m", "DETAIL", "Italian"⟩ ∧
    map_location_logic ⟨'A', 'M', "423456".data, "01".data, "01".data,
        'M', "tif".data⟩ =
      ⟨"costruttivi", "Costruttivi", "m", "DETAIL", "Italian"⟩ := by
  decide

/-- C2 (amended): for every location letter that owns a `(loc, '*')` table
row and every first digit in `{4, 5}`, the pipeline's resolution
(swarky_core.py:221-226) takes the `('*', digit)` row — its order is
exact, then `('*', digit)`, then `(loc, '*')`, then default — while the
swarky_logic variant takes the `(loc, '*')` row; the two disagree on this
whole domain. -/
theorem c2_pipeline_star_digit_priority (u first : Char)
    (hu : u ∈ (['M', 'K', 'F', 'T', 'E', 'S', 'N', 'P'] : List Char))
    (hf : first ∈ (['4', '5'] : List Char)) :
    resolveCore u first = (dictGet ('*', first)).getD DEFAULT_LOCATION ∧
    resolveLogic u first = (dictGet (u, '*')).getD DEFAULT_LOCATION ∧
    resolveCore u first ≠ resolveLogic u first := by
  fin_cases hu <;> fin_cases hf <;> decide

/-- Witness for `c2_pipeline_star_digit_priority` at `('M', '4')`. -/
theorem c2_pipeline_star_digit_priority_witness :
    resolveCore 'M' '4' = (dictGet ('*', '4')).getD DEFAULT_LOCATION ∧
    resolveLogic 'M' '4' = (dictGet ('M', '*')).getD DEFAULT_LOCATION ∧
    resolveCore 'M' '4' ≠ resolveLogic 'M' '4' :=
  c2_pipeline_star_digit_priority 'M' '4' (by decide) (by decide)

/-! ## C3: move-to-historical overwrite -/

/-- C3 (code bug): with `X.tif` already present in the historical
destination, the pipeline's `move_to_storico_safe` (swarky_core.py:176)
refuses with `(copied=False, rc=0)` and leaves both files unchanged, as
the claim states — but `DefaultIOOps.move_to_storico_safe`
(swarky_io.py:230), which gui.py imports with the comment `move "safe"
senza overwrite`, performs `os.replace` without an existence check: it
overwrites the historical file and reports `(True, 1)`. -/
theorem c3_storico_overwrite_bug :
    move_to_storico_safe_core "X.tif" "new" [("X.tif", "old")] true =
      ([("X.tif", "old")], some "new", false, 0) ∧
    move_to_storico_safe_io "X.tif" "new" [("X.tif", "old")] =
      ([("X.tif", "new")], none, true, 1) := by
  decide

/-! ## C7: ISS classic sidecar fields -/

/-- C7 (counterexample): the sidecar that `write_edi` writes for an
`ISS_BASENAME` match carries `Document_Type=DETAIL` (rendered `Detail` in
the `[DrawingInfo]` section), not the `Document_Type=Customer Drawings`
the claim states. -/
theorem c7_iss_doctype_counterexample :
    "Document_Type=Customer Drawings" ∉
      issClassicBody "1234" "ABCD" "EF0123" "00" "01"
        "G1234ABCDEF0123ISSR00S01.pdf" "2024-01-01 00:00:00" ∧
    "Document_Type=DETAIL" ∈
      issClassicBody "1234" "ABCD" "EF0123" "00" "01"
        "G1234ABCDEF0123ISSR00S01.pdf" "2024-01-01 00:00:00" ∧
    "Document_Type=Detail" ∈
      issClassicBody "1234" "ABCD" "EF0123" "00" "01"
        "G1234ABCDEF0123ISSR00S01.pdf" "2024-01-01 00:00:00" := by
  decide

/-- C7 (amended): for every ISS_CLASSIC ingest, the sidecar body has
`DocumentNo = "G" + g4 + s4 + s6` (no `ISS` suffix), `ActualSize=A4`,
`UOM=Metric`, `DWGLanguage=English` and `FileType=Pdf` as claimed, but its
`Document_Type` is `DETAIL` in `[DatabaseFields]` and `Detail` in
`[DrawingInfo]`, not `Customer Drawings`. -/
theorem c7_iss_classic_sidecar_fields (g1 g2 g3 rev sheet fn now : String) :
    (issClassicBody g1 g2 g3 rev sheet fn now)[4]? =
      some ("DocumentNo=" ++ ("G" ++ g1 ++ g2 ++ g3)) ∧
    (issClassicBody g1 g2 g3 rev sheet fn now)[8]? =
      some "ActualSize=A4" ∧
    (issClassicBody g1 g2 g3 rev sheet fn now)[19]? =
      some "UOM=Metric" ∧
    (issClassicBody g1 g2 g3 rev sheet fn now)[20]? =
      some "DWGLanguage=English" ∧
    (issClassicBody g1 g2 g3 rev sheet fn now)[33]? =
      some "FileType=Pdf" ∧
    (issClassicBody g1 g2 g3 rev sheet fn now)[14]? =
      some "Document_Type=DETAIL" ∧
    (issClassicBody g1 g2 g3 rev sheet fn now)[30]? =
      some "Document_Type=Detail" :=
  ⟨rfl, rfl, rfl, rfl, rfl, rfl, rfl⟩

/-! ## C8: ISS_MARKED order number -/

/-- C8 (counterexample): for an ISS_MARKED stem with no `-`
(`ABC123R00S01.pdf`, stem `ABC123`), the sidecar's `OrderNumber` is the
whole stem `ABC123`, not the empty string the claim states. -/
theorem c8_order_number_counterexample :
    (issMarkedBody "ABC123".data "00" "01" "ABC123R00S01.pdf"
        "2024-01-01 00:00:00")[12]? = some "OrderNumber=ABC123" ∧
    ("OrderNumber=ABC123" : String) ≠ "OrderNumber=" := by
  decide

/-- C8 (amended): the `OrderNumber` field of the ISS_MARKED sidecar is
`docno.split("-", 1)[0]`: the part of the captured stem strictly before
the first `-` when the stem contains one, and the **whole stem** (not the
empty string) when it contains no `-`. -/
theorem c8_order_number_before_dash (stem : Name)
    (rev sheet fn now : String) :
    (issMarkedBody stem rev sheet fn now)[12]? =
      some ("OrderNumber=" ++ String.mk (beforeDash stem)) ∧
    ('-' ∉ stem → beforeDash stem = stem) ∧
    ('-' ∈ stem →
      '-' ∉ beforeDash stem ∧
      ∃ rest, stem = beforeDash stem ++ '-' :: rest) := by
  refine ⟨rfl, ?_, ?_⟩
  · intro hnd
    induction stem with
    | nil => rfl
    | cons c t ih =>
      rw [beforeDash]
      rw [if_neg (by simp at hnd; exact fun h => hnd.1 h.symm)]
      rw [ih (by simp at hnd; exact hnd.2)]
  · intro hd
    induction stem with
    | nil => simp at hd
    | cons c t ih =>
      by_cases hc : c = '-'
      · subst hc
        exact ⟨by simp [beforeDash], ⟨t, by simp [beforeDash]⟩⟩
      · obtain ⟨hnd, rest, hrest⟩ := ih (by
          rcases List.mem_cons.mp hd with h | h
          · exact absurd h.symm hc
          · exact h)
        refine ⟨?_, ⟨rest, ?_⟩⟩
        · rw [beforeDash, if_neg hc]
          intro hmem
          rcases List.mem_cons.mp hmem with h | h
          · exact hc h.symm
          · exact hnd h
        · rw [beforeDash, if_neg hc]
          simpa using hrest

/-- Witness for `c8_order_number_before_dash` at stem `2023JOB-XYZ`. -/
theorem c8_order_number_before_dash_witness :
    (issMarkedBody "2023JOB-XYZ".data "00" "01" "2023JOB-XYZR00S01.pdf"
        "2024-01-01 00:00:00")[12]? =
      some ("OrderNumber=" ++ String.mk (beforeDash "2023JOB-XYZ".data)) ∧
    ('-' ∉ "2023JOB".data → beforeDash "2023JOB".data = "2023JOB".data) ∧
    ('-' ∈ "2023JOB-XYZ".data →
      '-' ∉ beforeDash "2023JOB-XYZ".data ∧
      ∃ rest, "2023JOB-XYZ".data =
        beforeDash "2023JOB-XYZ".data ++ '-' :: rest) :=
  ⟨(c8_order_number_before_dash "2023JOB-XYZ".data "00" "01"
      "2023JOB-XYZR00S01.pdf" "2024-01-01 00:00:00").1,
   (c8_order_number_before_dash "2023JOB".data "00" "01" "x.pdf" "t").2.1,
   (c8_order_number_before_dash "2023JOB-XYZ".data "00" "01"
      "2023JOB-XYZR00S01.pdf" "2024-01-01 00:00:00").2.2⟩

/-! ## C6: sidecar write-once idempotence -/

/-- Appending a pair keyed `k` makes the key findable. -/
theorem find?_key_append_self (fs : Dir) (k v : String) :
    ((fs ++ [(k, v)]).find? fun p => p.1 == k).isSome = true := by
  induction fs with
  | nil => simp [List.find?]
  | cons a t ih =>
    by_cases ha : (a.1 == k) = true
    · simp [List.find?, ha]
    · rw [List.cons_append]
      have hstep : List.find? (fun p => p.1 == k) (a :: (t ++ [(k, v)])) =
          List.find? (fun p => p.1 == k) (t ++ [(k, v)]) :=
        List.find?_cons_of_neg _ ha
      rw [hstep]
      exact ih

/-- C6 (confirmed): `write_edi` checks the sidecar path before touching
anything: when `{out_dir}/{stem}.DESEDI` exists it returns leaving the
filesystem exactly as it was, and running the call twice with the same
arguments yields the same filesystem as running it once. -/
theorem c6_write_edi_write_once_idempotent (fs : Dir)
    (outDir fileName : String) (body : List String) :
    (lookupD fs (ediPath outDir fileName) ≠ none →
      writeEdiFS fs outDir fileName body = fs) ∧
    writeEdiFS (writeEdiFS fs outDir fileName body) outDir fileName body =
      writeEdiFS fs outDir fileName body := by
  constructor
  · intro h
    have hs : (fs.find? fun p => p.1 == ediPath outDir fileName).isSome
        = true := by
      rcases hfind : fs.find? fun p => p.1 == ediPath outDir fileName with
        _ | p
      · exact absurd (by rw [lookupD, hfind]; rfl) h
      · rw [hfind]; rfl
    rw [writeEdiFS, if_pos hs]
  · by_cases hs :
      (fs.find? fun p => p.1 == ediPath outDir fileName).isSome = true
    · have h1 : writeEdiFS fs outDir fileName body = fs := by
        rw [writeEdiFS, if_pos hs]
      rw [h1]
      exact h1
    · have h1 : writeEdiFS fs outDir fileName body =
          fs ++ [(ediPath outDir fileName, joinedLines body)] := by
        rw [writeEdiFS, if_neg hs]
      rw [h1, writeEdiFS, if_pos (find?_key_append_self fs _ _)]

/-- Witness for `c6_write_edi_write_once_idempotent`: with
`out/a.DESEDI` already present, the write is a no-op. -/
theorem c6_write_edi_write_once_idempotent_witness :
    lookupD [("out/a.DESEDI", "old")] (ediPath "out" "a.tif") ≠ none ∧
    writeEdiFS [("out/a.DESEDI", "old")] "out" "a.tif" ["[Database]"] =
      [("out/a.DESEDI", "old")] :=
  ⟨by decide,
   (c6_write_edi_write_once_idempotent [("out/a.DESEDI", "old")] "out"
      "a.tif" ["[Database]"]).1 (by decide)⟩

/-! ## C10: the generic move overwrites -/

/-- `lookupD` after `upsert` at the written key. -/
theorem lookupD_upsert_self (d : Dir) (k v : String) :
    lookupD (upsert d k v) k = some v := by
  induction d with
  | nil =>
    rw [upsert, lookupD, List.find?_cons_of_pos _ (by simp)]
    rfl
  | cons a t ih =>
    obtain ⟨k', v'⟩ := a
    by_cases ha : k' = k
    · rw [upsert, if_pos ha, lookupD, List.find?_cons_of_pos _ (by simp)]
      rfl
    · rw [upsert, if_neg ha, lookupD,
        List.find?_cons_of_neg _ (by simpa using ha)]
      exact ih

/-- `lookupD` after `upsert` at any other key. -/
theorem lookupD_upsert_ne (d : Dir) (k v k' : String) (h : k' ≠ k) :
    lookupD (upsert d k v) k' = lookupD d k' := by
  induction d with
  | nil =>
    rw [upsert, lookupD, lookupD,
      List.find?_cons_of_neg _ (by simpa using fun hh => h hh.symm)]
  | cons a t ih =>
    obtain ⟨ka, va⟩ := a
    by_cases ha : ka = k
    · subst ha
      rw [upsert, if_pos rfl, lookupD, lookupD,
        List.find?_cons_of_neg _ (by simpa using fun hh => h hh.symm),
        List.find?_cons_of_neg _ (by simpa using fun hh => h hh.symm)]
    · by_cases ha' : ka = k'
      · rw [upsert, if_neg ha, lookupD, lookupD,
          List.find?_cons_of_pos _ (by simpa using ha'),
          List.find?_cons_of_pos _ (by simpa using ha')]
      · rw [upsert, if_neg ha, lookupD, lookupD,
          List.find?_cons_of_neg _ (by simpa using ha'),
          List.find?_cons_of_neg _ (by simpa using ha')]
        exact ih

/-- C10 (confirmed): `move_to` copies over `dst_dir/src.name` without any
existence check — an already-present file of the same name is silently
replaced by the source's content — then removes the source; every other
file of the destination directory is untouched.  This is the move used
for the `Pari Revisione` duplicate directory and for the reject
directory. -/
theorem c10_move_to_overwrites (dst : Dir) (srcName content : String) :
    lookupD (move_to_model srcName content dst).1 srcName = some content ∧
    (move_to_model srcName content dst).2 = none ∧
    ∀ k, k ≠ srcName →
      lookupD (move_to_model srcName content dst).1 k = lookupD dst k :=
  ⟨lookupD_upsert_self dst srcName content, rfl,
   fun k hk => lookupD_upsert_ne dst srcName content k hk⟩

/-- Witness for `c10_move_to_overwrites`: a second `Pari Revisione`
duplicate of `X.tif` replaces the copy already parked in the duplicate
directory and leaves the unrelated `Y.tif` alone. -/
theorem c10_move_to_overwrites_witness :
    lookupD (move_to_model "X.tif" "new" [("X.tif", "old"), ("Y.tif", "y")]).1
        "X.tif" = some "new" ∧
    lookupD (move_to_model "X.tif" "new" [("X.tif", "old"), ("Y.tif", "y")]).1
        "Y.tif" = lookupD [("X.tif", "old"), ("Y.tif", "y")] "Y.tif" :=
  ⟨(c10_move_to_overwrites [("X.tif", "old"), ("Y.tif", "y")] "X.tif"
      "new").1,
   (c10_move_to_overwrites [("X.tif", "old"), ("Y.tif", "y")] "X.tif"
      "new").2.2 "Y.tif" (by decide)⟩

/-! ## Reconciler lemmas -/

/-- `Nat.max` unfolded (definitional). -/
theorem natMax_def (a b : Nat) : Nat.max a b = if a ≤ b then b else a := rfl

/-- `maxRev?` of a non-empty list is `some`. -/
theorem maxRev?_cons_isSome (e : Entry) (t : List Entry) :
    ∃ m, maxRev? (e :: t) = some m := by
  rw [maxRev?]
  cases maxRev? t
  · exact ⟨_, rfl⟩
  · exact ⟨_, rfl⟩

/-- `max(..., default=None)` is `None` exactly on the empty list. -/
theorem maxRev?_eq_none {es : List Entry} : maxRev? es = none ↔ es = [] := by
  cases es with
  | nil => simp [maxRev?]
  | cons e t =>
    obtain ⟨m, hm⟩ := maxRev?_cons_isSome e t
    simp [hm]

/-- The maximum revision is attained by some entry. -/
theorem maxRev?_mem : ∀ {es : List Entry} {m : Nat},
    maxRev? es = some m → ∃ e, e ∈ es ∧ revN e = m := by
  intro es
  induction es with
  | nil => intro m h; simp [maxRev?] at h
  | cons e t ih =>
    intro m h
    rw [maxRev?] at h
    cases ht : maxRev? t with
    | none =>
      rw [ht] at h
      exact ⟨e, List.mem_cons_self e t, (Option.some.inj h)⟩
    | some m' =>
      rw [ht] at h
      have hm : m = Nat.max (revN e) m' := (Option.some.inj h).symm
      rcases Nat.le_total m' (revN e) with hle | hle
      · exact ⟨e, List.mem_cons_self e t,
          by rw [hm, natMax_def]; split <;> omega⟩
      · obtain ⟨e', he', hrev⟩ := ih ht
        exact ⟨e', List.mem_cons_of_mem e he',
          by rw [hm, natMax_def]; split <;> omega⟩

/-- The maximum revision bounds every entry. -/
theorem maxRev?_le : ∀ {es : List Entry} {m : Nat},
    maxRev? es = some m → ∀ e ∈ es, revN e ≤ m := by
  intro es
  induction es with
  | nil => intro m _ e he; exact absurd he (List.not_mem_nil e)
  | cons e t ih =>
    intro m h x hx
    rw [maxRev?] at h
    cases ht : maxRev? t with
    | none =>
      rw [ht] at h
      obtain rfl : revN e = m := Option.some.inj h
      have : t = [] := maxRev?_eq_none.mp ht
      subst this
      rcases List.mem_cons.mp hx with rfl | hx
      · exact Nat.le_refl _
      · exact absurd hx (List.not_mem_nil x)
    | some m' =>
      rw [ht] at h
      obtain rfl : Nat.max (revN e) m' = m := Option.some.inj h
      rcases List.mem_cons.mp hx with rfl | hx
      · rw [natMax_def]; split <;> omega
      · have := ih ht x hx
        rw [natMax_def]; split <;> omega

/-- `maxRev?` of a list with a member is `some`. -/
theorem maxRev?_isSome_of_mem {es : List Entry} {e : Entry} (h : e ∈ es) :
    ∃ m, maxRev? es = some m := by
  cases es with
  | nil => exact absurd h (List.not_mem_nil e)
  | cons x t => exact maxRev?_cons_isSome x t

/-- The older-revision guard is false when no entry exceeds `r`. -/
theorem ltOpt_false_of_le {r : Nat} {es : List Entry}
    (h : ∀ e ∈ es, revN e ≤ r) : ltOpt r (maxRev? es) = false := by
  cases hm : maxRev? es with
  | none => rfl
  | some m =>
    obtain ⟨e, he, hrev⟩ := maxRev?_mem hm
    have := h e he
    rw [hrev] at this
    simp [ltOpt]
    omega

/-- The older-revision guard is true when some entry exceeds `r`. -/
theorem ltOpt_true_of_mem_lt {r : Nat} {es : List Entry} {e : Entry}
    (he : e ∈ es) (hr : r < revN e) : ltOpt r (maxRev? es) = true := by
  obtain ⟨m, hm⟩ := maxRev?_isSome_of_mem he
  have hle := maxRev?_le hm e he
  rw [hm]
  simp [ltOpt]
  omega

/-- The `Revisione Precendente` reference is the first entry holding the
maximum revision of the examined set. -/
theorem refAtMax_spec {es : List Entry} {m : Nat}
    (h : maxRev? es = some m) :
    ∃ e, e ∈ es ∧ revN e = m ∧ (∀ x ∈ es, revN x ≤ revN e) ∧
      refAtMax es = e.nm := by
  obtain ⟨e', he', hrev⟩ := maxRev?_mem h
  have hfind : (es.find? fun e => revN e == m).isSome := by
    rw [List.find?_isSome]
    exact ⟨e', he', by simp [hrev]⟩
  rcases hf : es.find? fun e => revN e == m with _ | e₀
  · rw [hf] at hfind; simp at hfind
  · have hm0 : revN e₀ = m := by simpa using List.find?_some hf
    refine ⟨e₀, List.mem_of_find?_eq_some hf, hm0, ?_, ?_⟩
    · intro x hx
      rw [hm0]
      exact maxRev?_le h x hx
    · simp [refAtMax, h, hf]

/-- The `Pari Revisione` test is false when no archived entry repeats the
candidate's name and revision. -/
theorem pari_any_false {name : Name} {dn : DrawingName} {ss : List Entry}
    (h : ∀ e ∈ ss, ¬(e.nm = name ∧ e.rev = dn.rev)) :
    (ss.any fun e => e.nm == name && e.rev == dn.rev) = false := by
  rw [List.any_eq_false]
  intro e he
  simp only [Bool.and_eq_true, beq_iff_eq, not_and]
  exact fun h1 h2 => h e he ⟨h1, h2⟩

/-- After a successful parse and the three letter validations,
`_process_candidate` runs the reconciler on the same-sheet index. -/
theorem process_candidate_eq {name : Name} {dn : DrawingName}
    (dir : List Name) (hp : parseStandardChars name = some dn)
    (hf : checkFormat dn = true) (hl : checkLocation dn = true)
    (hm : checkMetric dn = true) :
    process_candidate name dir =
      decideOn name dn (sameSheetEntries dir (docnoOf dn) dn.sheet) := by
  unfold process_candidate
  rw [hp]
  simp [hf, hl, hm]

/-- A rejected candidate goes to the reject directory and changes nothing
else. -/
theorem runPass_reject {name : Name} {st : PassState} {r : String}
    {ref : Name} (h : process_candidate name st.archive = .reject r ref) :
    runPass name st = { st with rejectDir := st.rejectDir ++ [name] } := by
  unfold runPass
  rw [h]

/-- An accepted candidate lands in the archive directory; the demoted and
legacy names leave it. -/
theorem runPass_accept {name : Name} {st : PassState} {dn : DrawingName}
    {i : Option Name} {dS dO : List Name}
    (hp : parseStandardChars name = some dn)
    (h : process_candidate name st.archive = .accept i dS dO) :
    runPass name st = { st with archive :=
      (st.archive.filter fun nm =>
        !(dS.contains nm || dO.contains nm ||
          (legacyNames st.archive (docnoOf dn)).contains nm)) ++ [name] } := by
  unfold runPass
  simp only [h, hp]

/-! ## C5: older-revision rejection -/

/-- C5 (counterexample): the reason string the code emits is the
misspelled `Revisione Precendente` (swarky_pipeline.py:140,147, preserved
for log compatibility), not the `Revisione Precedente` the claim states. -/
theorem c5_reason_spelling_counterexample :
    process_candidate "DAM123456R03S01D.tif".data
        ["DAM123456R05S01M.tif".data] =
      .reject "Revisione Precendente" "DAM123456R05S01M.tif".data ∧
    ("Revisione Precendente" : String) ≠ "Revisione Precedente" := by
  decide

/-- C5 (amended): restricted to its `(doc_no, sheet)`, a new standard file
whose revision is strictly below the maximum of the opposite measurement
group — or, failing that, strictly below the maximum of its own metric
letter — is rejected with the (sic) reason `Revisione Precendente` whose
reference is the first entry holding that maximum; the candidate goes to
the reject directory and the archive directory is left unchanged. -/
theorem c5_older_revision_reject :
    (∀ (dir : List Name) (name : Name) (dn : DrawingName),
      parseStandardChars name = some dn →
      checkFormat dn = true → checkLocation dn = true →
      checkMetric dn = true →
      (∀ e ∈ sameSheetEntries dir (docnoOf dn) dn.sheet,
        ¬(e.nm = name ∧ e.rev = dn.rev)) →
      (∃ e ∈ otherEsOf dn (sameSheetEntries dir (docnoOf dn) dn.sheet),
        newRevN dn < revN e) →
      ∃ e₀, e₀ ∈ otherEsOf dn (sameSheetEntries dir (docnoOf dn) dn.sheet) ∧
        newRevN dn < revN e₀ ∧
        (∀ x ∈ otherEsOf dn (sameSheetEntries dir (docnoOf dn) dn.sheet),
          revN x ≤ revN e₀) ∧
        process_candidate name dir =
          .reject "Revisione Precendente" e₀.nm ∧
        (runPass name ⟨dir, [], []⟩).archive = dir ∧
        (runPass name ⟨dir, [], []⟩).rejectDir = [name]) ∧
    (∀ (dir : List Name) (name : Name) (dn : DrawingName),
      parseStandardChars name = some dn →
      checkFormat dn = true → checkLocation dn = true →
      checkMetric dn = true →
      (∀ e ∈ sameSheetEntries dir (docnoOf dn) dn.sheet,
        ¬(e.nm = name ∧ e.rev = dn.rev)) →
      (∀ e ∈ otherEsOf dn (sameSheetEntries dir (docnoOf dn) dn.sheet),
        revN e ≤ newRevN dn) →
      (∃ e ∈ ssOwnOf dn (sameSheetEntries dir (docnoOf dn) dn.sheet),
        newRevN dn < revN e) →
      ∃ e₀, e₀ ∈ ssOwnOf dn (sameSheetEntries dir (docnoOf dn) dn.sheet) ∧
        newRevN dn < revN e₀ ∧
        (∀ x ∈ ssOwnOf dn (sameSheetEntries dir (docnoOf dn) dn.sheet),
          revN x ≤ revN e₀) ∧
        process_candidate name dir =
          .reject "Revisione Precendente" e₀.nm ∧
        (runPass name ⟨dir, [], []⟩).archive = dir ∧
        (runPass name ⟨dir, [], []⟩).rejectDir = [name]) := by
  constructor
  · intro dir name dn hp hf hl hm hnd hex
    obtain ⟨e, he, hlt⟩ := hex
    obtain ⟨m, hmax⟩ := maxRev?_isSome_of_mem he
    have hguard : ltOpt (newRevN dn)
        (otherMaxOf dn (sameSheetEntries dir (docnoOf dn) dn.sheet)) =
        true := ltOpt_true_of_mem_lt he hlt
    obtain ⟨e₀, he₀, hrev₀, hmaxle, href⟩ := refAtMax_spec hmax
    have hlt₀ : newRevN dn < revN e₀ := Nat.lt_of_lt_of_le hlt (hmaxle e he)
    have hpc : process_candidate name dir =
        .reject "Revisione Precendente" e₀.nm := by
      rw [process_candidate_eq dir hp hf hl hm, decideOn,
        pari_any_false hnd]
      simp only [Bool.false_eq_true, if_false, hguard, if_true, href]
    refine ⟨e₀, he₀, hlt₀, hmaxle, hpc, ?_, ?_⟩
    · rw [runPass_reject hpc]
    · rw [runPass_reject hpc]
      simp
  · intro dir name dn hp hf hl hm hnd hoth hex
    obtain ⟨e, he, hlt⟩ := hex
    obtain ⟨m, hmax⟩ := maxRev?_isSome_of_mem he
    have hguard1 : ltOpt (newRevN dn)
        (otherMaxOf dn (sameSheetEntries dir (docnoOf dn) dn.sheet)) =
        false := ltOpt_false_of_le hoth
    have hguard2 : ltOpt (newRevN dn)
        (ownMaxOf dn (sameSheetEntries dir (docnoOf dn) dn.sheet)) =
        true := ltOpt_true_of_mem_lt he hlt
    obtain ⟨e₀, he₀, hrev₀, hmaxle, href⟩ := refAtMax_spec hmax
    have hlt₀ : newRevN dn < revN e₀ := Nat.lt_of_lt_of_le hlt (hmaxle e he)
    have hpc : process_candidate name dir =
        .reject "Revisione Precendente" e₀.nm := by
      rw [process_candidate_eq dir hp hf hl hm, decideOn,
        pari_any_false hnd]
      simp only [Bool.false_eq_true, if_false, hguard1, hguard2, if_true,
        href]
    refine ⟨e₀, he₀, hlt₀, hmaxle, hpc, ?_, ?_⟩
    · rw [runPass_reject hpc]
    · rw [runPass_reject hpc]
      simp

/-- Witness for `c5_older_revision_reject`: archive
`{DAM123456R05S01M.tif}` and candidate `DAM123456R03S01D.tif` (part one);
archive `{DAM123456R05S01M.tif}` and candidate `DAM123456R03S01M.tif`
(part two). -/
theorem c5_older_revision_reject_witness :
    (∃ e₀, e₀ ∈ otherEsOf
        ⟨'A', 'M', "123456".data, "03".data, "01".data, 'D', "tif".data⟩
        (sameSheetEntries ["DAM123456R05S01M.tif".data]
          (docnoOf ⟨'A', 'M', "123456".data, "03".data, "01".data, 'D',
            "tif".data⟩) "01".data) ∧
      newRevN ⟨'A', 'M', "123456".data, "03".data, "01".data, 'D',
        "tif".data⟩ < revN e₀ ∧
      (∀ x ∈ otherEsOf
          ⟨'A', 'M', "123456".data, "03".data, "01".data, 'D', "tif".data⟩
          (sameSheetEntries ["DAM123456R05S01M.tif".data]
            (docnoOf ⟨'A', 'M', "123456".data, "03".data, "01".data, 'D',
              "tif".data⟩) "01".data),
        revN x ≤ revN e₀) ∧
      process_candidate "DAM123456R03S01D.tif".data
          ["DAM123456R05S01M.tif".data] =
        .reject "Revisione Precendente" e₀.nm ∧
      (runPass "DAM123456R03S01D.tif".data
        ⟨["DAM123456R05S01M.tif".data], [], []⟩).archive =
        ["DAM123456R05S01M.tif".data] ∧
      (runPass "DAM123456R03S01D.tif".data
        ⟨["DAM123456R05S01M.tif".data], [], []⟩).rejectDir =
        ["DAM123456R03S01D.tif".data]) ∧
    (∃ e₀, e₀ ∈ ssOwnOf
        ⟨'A', 'M', "123456".data, "03".data, "01".data, 'M', "tif".data⟩
        (sameSheetEntries ["DAM123456R05S01M.tif".data]
          (docnoOf ⟨'A', 'M', "123456".data, "03".data, "01".data, 'M',
            "tif".data⟩) "01".data) ∧
      newRevN ⟨'A', 'M', "123456".data, "03".data, "01".data, 'M',
        "tif".data⟩ < revN e₀ ∧
      (∀ x ∈ ssOwnOf
          ⟨'A', 'M', "123456".data, "03".data, "01".data, 'M', "tif".data⟩
          (sameSheetEntries ["DAM123456R05S01M.tif".data]
            (docnoOf ⟨'A', 'M', "123456".data, "03".data, "01".data, 'M',
              "tif".data⟩) "01".data),
        revN x ≤ revN e₀) ∧
      process_candidate "DAM123456R03S01M.tif".data
          ["DAM123456R05S01M.tif".data] =
        .reject "Revisione Precendente" e₀.nm ∧
      (runPass "DAM123456R03S01M.tif".data
        ⟨["DAM123456R05S01M.tif".data], [], []⟩).archive =
        ["DAM123456R05S01M.tif".data] ∧
      (runPass "DAM123456R03S01M.tif".data
        ⟨["DAM123456R05S01M.tif".data], [], []⟩).rejectDir =
        ["DAM123456R03S01M.tif".data]) :=
  ⟨c5_older_revision_reject.1 ["DAM123456R05S01M.tif".data]
      "DAM123456R03S01D.tif".data
      ⟨'A', 'M', "123456".data, "03".data, "01".data, 'D', "tif".data⟩
      (by decide) (by decide) (by decide) (by decide) (by decide)
      (by decide),
   c5_older_revision_reject.2 ["DAM123456R05S01M.tif".data]
      "DAM123456R03S01M.tif".data
      ⟨'A', 'M', "123456".data, "03".data, "01".data, 'M', "tif".data⟩
      (by decide) (by decide) (by decide) (by decide) (by decide)
      (by decide) (by decide)⟩

/-! ## C4: equal-revision metric asymmetry -/

/-- Opposite-group entries come from the same-sheet set. -/
theorem otherEs_subset {dn : DrawingName} {ss : List Entry} :
    ∀ x ∈ otherEsOf dn ss, x ∈ ss := by
  intro x hx
  rw [otherEsOf] at hx
  split at hx
  · rw [ssDNof] at hx
    exact (List.mem_filter.mp hx).1
  · rw [ssMIof] at hx
    exact (List.mem_filter.mp hx).1

/-- Same-metric entries come from the same-sheet set. -/
theorem ssOwn_subset {dn : DrawingName} {ss : List Entry} :
    ∀ x ∈ ssOwnOf dn ss, x ∈ ss := by
  intro x hx
  rw [ssOwnOf] at hx
  exact (List.mem_filter.mp hx).1

/-- C4 (confirmed): at equal revision within the candidate's own
measurement group the decision is asymmetric.  First part — a new
MI-group file finding a same-sheet MI entry at the same revision with a
different metric letter is still accepted, with the informational
`Metrica Diversa` reference set to that entry's name.  Second part — a
new DN-group file finding a same-sheet DN entry at the same revision with
a different metric letter is hard-rejected with the
`Conflitto Metrica (D/N a pari revisione)` anomaly referencing that
entry, and the archive is untouched. -/
theorem c4_equal_rev_metric_asymmetry :
    (∀ (dir : List Name) (name : Name) (dn : DrawingName),
      parseStandardChars name = some dn →
      checkFormat dn = true → checkLocation dn = true →
      checkMetric dn = true → gMIof dn = true →
      (∀ e ∈ sameSheetEntries dir (docnoOf dn) dn.sheet,
        ¬(e.nm = name ∧ e.rev = dn.rev)) →
      (∀ e ∈ sameSheetEntries dir (docnoOf dn) dn.sheet,
        revN e ≤ newRevN dn) →
      (∀ e ∈ sameSheetEntries dir (docnoOf dn) dn.sheet,
        isDN e.met = true → revN e ≠ newRevN dn) →
      (∃ e ∈ sameSheetEntries dir (docnoOf dn) dn.sheet,
        isMI e.met = true ∧ revN e = newRevN dn ∧
        e.met ≠ Char.toUpper dn.metric) →
      ∃ e₀, e₀ ∈ sameSheetEntries dir (docnoOf dn) dn.sheet ∧
        isMI e₀.met = true ∧ revN e₀ = newRevN dn ∧
        e₀.met ≠ Char.toUpper dn.metric ∧
        process_candidate name dir =
          .accept (some e₀.nm)
            (demSameOf dn (sameSheetEntries dir (docnoOf dn) dn.sheet))
            (demOtherOf dn (sameSheetEntries dir (docnoOf dn) dn.sheet)) ∧
        name ∈ (runPass name ⟨dir, [], []⟩).archive) ∧
    (∀ (dir : List Name) (name : Name) (dn : DrawingName),
      parseStandardChars name = some dn →
      checkFormat dn = true → checkLocation dn = true →
      checkMetric dn = true → gMIof dn = false →
      (∀ e ∈ sameSheetEntries dir (docnoOf dn) dn.sheet,
        ¬(e.nm = name ∧ e.rev = dn.rev)) →
      (∀ e ∈ sameSheetEntries dir (docnoOf dn) dn.sheet,
        revN e ≤ newRevN dn) →
      (∀ e ∈ sameSheetEntries dir (docnoOf dn) dn.sheet,
        isMI e.met = true → revN e ≠ newRevN dn) →
      (∃ e ∈ sameSheetEntries dir (docnoOf dn) dn.sheet,
        isDN e.met = true ∧ revN e = newRevN dn ∧
        e.met ≠ Char.toUpper dn.metric) →
      ∃ e₀, e₀ ∈ sameSheetEntries dir (docnoOf dn) dn.sheet ∧
        isDN e₀.met = true ∧ revN e₀ = newRevN dn ∧
        e₀.met ≠ Char.toUpper dn.metric ∧
        process_candidate name dir =
          .reject "Conflitto Metrica (D/N a pari revisione)" e₀.nm ∧
        (runPass name ⟨dir, [], []⟩).archive = dir ∧
        (runPass name ⟨dir, [], []⟩).rejectDir = [name]) := by
  constructor
  · intro dir name dn hp hf hl hm hgmi hnd hle hdn hex
    obtain ⟨e, he, hemi, herev, hene⟩ := hex
    have hguard1 : ltOpt (newRevN dn)
        (otherMaxOf dn (sameSheetEntries dir (docnoOf dn) dn.sheet)) =
        false :=
      ltOpt_false_of_le fun x hx => hle x (otherEs_subset x hx)
    have hguard2 : ltOpt (newRevN dn)
        (ownMaxOf dn (sameSheetEntries dir (docnoOf dn) dn.sheet)) =
        false :=
      ltOpt_false_of_le fun x hx => hle x (ssOwn_subset x hx)
    have hsrdn : sameRevDNof dn
        (sameSheetEntries dir (docnoOf dn) dn.sheet) = [] := by
      rw [sameRevDNof, List.filter_eq_nil_iff]
      intro x hx
      rw [ssDNof] at hx
      obtain ⟨hxss, hxdn⟩ := List.mem_filter.mp hx
      simp only [beq_iff_eq]
      exact fun hc => hdn x hxss hxdn (by simpa using hc)
    have hmem : e ∈ sameRevMIof dn
        (sameSheetEntries dir (docnoOf dn) dn.sheet) := by
      rw [sameRevMIof]
      refine List.mem_filter.mpr ⟨?_, by simp [herev]⟩
      rw [ssMIof]
      exact List.mem_filter.mpr ⟨he, hemi⟩
    have hsome : ((sameRevMIof dn
        (sameSheetEntries dir (docnoOf dn) dn.sheet)).find? fun x =>
          x.met != Char.toUpper dn.metric).isSome := by
      rw [List.find?_isSome]
      exact ⟨e, hmem, by simpa using hene⟩
    rcases hfind : (sameRevMIof dn
        (sameSheetEntries dir (docnoOf dn) dn.sheet)).find? (fun x =>
          x.met != Char.toUpper dn.metric) with _ | e₀
    · rw [hfind] at hsome
      simp at hsome
    · have hne₀ : e₀.met ≠ Char.toUpper dn.metric := by
        simpa using List.find?_some hfind
      have hmem₀ := List.mem_of_find?_eq_some hfind
      rw [sameRevMIof] at hmem₀
      obtain ⟨hmi₀', hrev₀'⟩ := List.mem_filter.mp hmem₀
      rw [ssMIof] at hmi₀'
      obtain ⟨hss₀, hmi₀⟩ := List.mem_filter.mp hmi₀'
      have hrev₀ : revN e₀ = newRevN dn := by simpa using hrev₀'
      have hpc : process_candidate name dir =
          .accept (some e₀.nm)
            (demSameOf dn (sameSheetEntries dir (docnoOf dn) dn.sheet))
            (demOtherOf dn (sameSheetEntries dir (docnoOf dn) dn.sheet)) := by
        rw [process_candidate_eq dir hp hf hl hm, decideOn,
          pari_any_false hnd]
        simp only [Bool.false_eq_true, if_false, hguard1, hguard2, hgmi,
          if_true, hsrdn, hfind]
        rfl
      refine ⟨e₀, hss₀, hmi₀, hrev₀, hne₀, hpc, ?_⟩
      rw [runPass_accept hp hpc]
      simp
  · intro dir name dn hp hf hl hm hgdn hnd hle hmi hex
    obtain ⟨e, he, hedn, herev, hene⟩ := hex
    have hguard1 : ltOpt (newRevN dn)
        (otherMaxOf dn (sameSheetEntries dir (docnoOf dn) dn.sheet)) =
        false :=
      ltOpt_false_of_le fun x hx => hle x (otherEs_subset x hx)
    have hguard2 : ltOpt (newRevN dn)
        (ownMaxOf dn (sameSheetEntries dir (docnoOf dn) dn.sheet)) =
        false :=
      ltOpt_false_of_le fun x hx => hle x (ssOwn_subset x hx)
    have hsrmi : sameRevMIof dn
        (sameSheetEntries dir (docnoOf dn) dn.sheet) = [] := by
      rw [sameRevMIof, List.filter_eq_nil_iff]
      intro x hx
      rw [ssMIof] at hx
      obtain ⟨hxss, hxmi⟩ := List.mem_filter.mp hx
      simp only [beq_iff_eq]
      exact fun hc => hmi x hxss hxmi (by simpa using hc)
    have hmem : e ∈ sameRevDNof dn
        (sameSheetEntries dir (docnoOf dn) dn.sheet) := by
      rw [sameRevDNof]
      refine List.mem_filter.mpr ⟨?_, by simp [herev]⟩
      rw [ssDNof]
      exact List.mem_filter.mpr ⟨he, hedn⟩
    have hsome : ((sameRevDNof dn
        (sameSheetEntries dir (docnoOf dn) dn.sheet)).find? fun x =>
          x.met != Char.toUpper dn.metric).isSome := by
      rw [List.find?_isSome]
      exact ⟨e, hmem, by simpa using hene⟩
    rcases hfind : (sameRevDNof dn
        (sameSheetEntries dir (docnoOf dn) dn.sheet)).find? (fun x =>
          x.met != Char.toUpper dn.metric) with _ | e₀
    · rw [hfind] at hsome
      simp at hsome
    · have hne₀ : e₀.met ≠ Char.toUpper dn.metric := by
        simpa using List.find?_some hfind
      have hmem₀ := List.mem_of_find?_eq_some hfind
      rw [sameRevDNof] at hmem₀
      obtain ⟨hdn₀', hrev₀'⟩ := List.mem_filter.mp hmem₀
      rw [ssDNof] at hdn₀'
      obtain ⟨hss₀, hdn₀⟩ := List.mem_filter.mp hdn₀'
      have hrev₀ : revN e₀ = newRevN dn := by simpa using hrev₀'
      have hpc : process_candidate name dir =
          .reject "Conflitto Metrica (D/N a pari revisione)" e₀.nm := by
        rw [process_candidate_eq dir hp hf hl hm, decideOn,
          pari_any_false hnd]
        simp only [Bool.false_eq_true, if_false, hguard1, hguard2, hgdn,
          if_true, hsrmi, hfind]
      refine ⟨e₀, hss₀, hdn₀, hrev₀, hne₀, hpc, ?_, ?_⟩
      · rw [runPass_reject hpc]
      · rw [runPass_reject hpc]
        simp

/-- Witness for `c4_equal_rev_metric_asymmetry`: archive
`{DAM123456R02S01I.tif}` with candidate `DAM123456R02S01M.tif` (accept
side) and archive `{DAM123456R02S01N.tif}` with candidate
`DAM123456R02S01D.tif` (reject side). -/
theorem c4_equal_rev_metric_asymmetry_witness :
    (∃ e₀, e₀ ∈ sameSheetEntries ["DAM123456R02S01I.tif".data]
        (docnoOf ⟨'A', 'M', "123456".data, "02".data, "01".data, 'M',
          "tif".data⟩) "01".data ∧
      isMI e₀.met = true ∧
      revN e₀ = newRevN ⟨'A', 'M', "123456".data, "02".data, "01".data,
        'M', "tif".data⟩ ∧
      e₀.met ≠ Char.toUpper 'M' ∧
      process_candidate "DAM123456R02S01M.tif".data
          ["DAM123456R02S01I.tif".data] =
        .accept (some e₀.nm)
          (demSameOf ⟨'A', 'M', "123456".data, "02".data, "01".data, 'M',
              "tif".data⟩
            (sameSheetEntries ["DAM123456R02S01I.tif".data]
              (docnoOf ⟨'A', 'M', "123456".data, "02".data, "01".data,
                'M', "tif".data⟩) "01".data))
          (demOtherOf ⟨'A', 'M', "123456".data, "02".data, "01".data, 'M',
              "tif".data⟩
            (sameSheetEntries ["DAM123456R02S01I.tif".data]
              (docnoOf ⟨'A', 'M', "123456".data, "02".data, "01".data,
                'M', "tif".data⟩) "01".data)) ∧
      "DAM123456R02S01M.tif".data ∈
        (runPass "DAM123456R02S01M.tif".data
          ⟨["DAM123456R02S01I.tif".data], [], []⟩).archive) ∧
    (∃ e₀, e₀ ∈ sameSheetEntries ["DAM123456R02S01N.tif".data]
        (docnoOf ⟨'A', 'M', "123456".data, "02".data, "01".data, 'D',
          "tif".data⟩) "01".data ∧
      isDN e₀.met = true ∧
      revN e₀ = newRevN ⟨'A', 'M', "123456".data, "02".data, "01".data,
        'D', "tif".data⟩ ∧
      e₀.met ≠ Char.toUpper 'D' ∧
      process_candidate "DAM123456R02S01D.tif".data
          ["DAM123456R02S01N.tif".data] =
        .reject "Conflitto Metrica (D/N a pari revisione)" e₀.nm ∧
      (runPass "DAM123456R02S01D.tif".data
        ⟨["DAM123456R02S01N.tif".data], [], []⟩).archive =
        ["DAM123456R02S01N.tif".data] ∧
      (runPass "DAM123456R02S01D.tif".data
        ⟨["DAM123456R02S01N.tif".data], [], []⟩).rejectDir =
        ["DAM123456R02S01D.tif".data]) :=
  ⟨c4_equal_rev_metric_asymmetry.1 ["DAM123456R02S01I.tif".data]
      "DAM123456R02S01M.tif".data
      ⟨'A', 'M', "123456".data, "02".data, "01".data, 'M', "tif".data⟩
      (by decide) (by decide) (by decide) (by decide) (by decide)
      (by decide) (by decide) (by decide) (by decide),
   c4_equal_rev_metric_asymmetry.2 ["DAM123456R02S01N.tif".data]
      "DAM123456R02S01D.tif".data
      ⟨'A', 'M', "123456".data, "02".data, "01".data, 'D', "tif".data⟩
      (by decide) (by decide) (by decide) (by decide) (by decide)
      (by decide) (by decide) (by decide) (by decide)⟩

/-! ## C1: index decomposition lemmas -/

/-- A list is an initial segment of itself followed by anything. -/
theorem startsList_self_append (p t : Name) :
    startsList p (p ++ t) = true := by
  induction p with
  | nil => rfl
  | cons a as ih => simp [startsList, ih]

/-- A list is a final segment of anything followed by itself. -/
theorem endsList_append (t s : Name) : endsList s (t ++ s) = true := by
  rw [endsList, List.reverse_append]
  exact startsList_self_append s.reverse t.reverse

/-- A name accepted by the STANDARD parser passes the `docno*` glob
(case-insensitive prefix) and the drawing-extension filter of
`_iter_docno_files` for its own document number. -/
theorem parsed_name_facts {name : Name} {dn : DrawingName}
    (hp : parseStandardChars name = some dn) :
    startsList (lowerL (docnoOf dn)) (lowerL name) = true ∧
    hasDrwExt name = true := by
  obtain ⟨f, lo, dd, rv, sh, met, ex⟩ := dn
  obtain ⟨c0, c9, c12, h0, -, -, hext, hdd, hrev, hsh, hex, hl⟩ :=
    parse_shape hp
  obtain ⟨d1, d2, d3, d4, d5, d6, hd⟩ := list_len_six hdd
  obtain ⟨r1, r2, hr⟩ := list_len_two hrev
  obtain ⟨s1, s2, hs⟩ := list_len_two hsh
  obtain ⟨e1, e2, e3, he⟩ := list_len_three hex
  simp only at hd hr hs he
  subst hd hr hs he hl
  have hc0 : Char.toLower c0 = 'd' := by
    rcases h0 with rfl | rfl <;> decide
  have hdot : Char.toLower '.' = '.' := by decide
  constructor
  · have hsplit : lowerL (c0 :: f :: lo ::
        ([d1, d2, d3, d4, d5, d6] ++ c9 :: [r1, r2] ++ c12 :: [s1, s2] ++
          met :: '.' :: [e1, e2, e3])) =
        lowerL (docnoOf ⟨f, lo, [d1, d2, d3, d4, d5, d6], [r1, r2],
          [s1, s2], met, [e1, e2, e3]⟩) ++
        lowerL (c9 :: [r1, r2] ++ c12 :: [s1, s2] ++
          met :: '.' :: [e1, e2, e3]) := by
      simp [lowerL, docnoOf, hc0]
    rw [hsplit]
    exact startsList_self_append _ _
  · rw [extOk, Bool.or_eq_true] at hext
    rcases hext with htype | htype
    · have heq : lowerL [e1, e2, e3] = "tif".data := by
        simpa using htype
      have hsplit : lowerL (c0 :: f :: lo ::
          ([d1, d2, d3, d4, d5, d6] ++ c9 :: [r1, r2] ++ c12 :: [s1, s2] ++
            met :: '.' :: [e1, e2, e3])) =
          lowerL [c0, f, lo, d1, d2, d3, d4, d5, d6, c9, r1, r2, c12,
            s1, s2, met] ++ ".tif".data := by
        simp only [lowerL, List.map] at heq ⊢
        simp [heq, hdot]
      rw [hasDrwExt, hsplit, endsList_append]
      rfl
    · have heq : lowerL [e1, e2, e3] = "pdf".data := by
        simpa using htype
      have hsplit : lowerL (c0 :: f :: lo ::
          ([d1, d2, d3, d4, d5, d6] ++ c9 :: [r1, r2] ++ c12 :: [s1, s2] ++
            met :: '.' :: [e1, e2, e3])) =
          lowerL [c0, f, lo, d1, d2, d3, d4, d5, d6, c9, r1, r2, c12,
            s1, s2, met] ++ ".pdf".data := by
        simp only [lowerL, List.map] at heq ⊢
        simp [heq, hdot]
      rw [hasDrwExt, hsplit, endsList_append]
      simp

/-- The same-document scan over a singleton holding a parsed name keeps
that name. -/
theorem iter_single {name : Name} {dn : DrawingName}
    (hp : parseStandardChars name = some dn) :
    iterDocnoFiles [name] (docnoOf dn) = [name] := by
  obtain ⟨h1, h2⟩ := parsed_name_facts hp
  rw [iterDocnoFiles]
  simp [h1, h2]

/-- The same-document scan distributes over list append. -/
theorem iter_append (l1 l2 : List Name) (d : Name) :
    iterDocnoFiles (l1 ++ l2) d =
      iterDocnoFiles l1 d ++ iterDocnoFiles l2 d := by
  rw [iterDocnoFiles, iterDocnoFiles, iterDocnoFiles, List.filter_append]

/-- The same-document scan commutes with a further name filter. -/
theorem iter_filter (l : List Name) (q : Name → Bool) (d : Name) :
    iterDocnoFiles (l.filter q) d = (iterDocnoFiles l d).filter q := by
  rw [iterDocnoFiles, iterDocnoFiles, List.filter_filter,
    List.filter_filter]
  exact List.filter_congr fun x _ => Bool.and_comm _ _

/-- Parsing the index commutes with a name filter. -/
theorem parse_prefixed_filter (l : List Name) (q : Name → Bool) :
    parse_prefixed (l.filter q) =
      (parse_prefixed l).filter fun e => q e.nm := by
  simp only [parse_prefixed]
  induction l with
  | nil => rfl
  | cons nm t ih =>
    by_cases hq : q nm = true
    · rw [List.filter_cons_of_pos hq]
      cases hpn : parseStandardChars nm with
      | none =>
        rw [List.filterMap_cons_none (by rw [hpn]; rfl),
          List.filterMap_cons_none (by rw [hpn]; rfl)]
        exact ih
      | some mm =>
        rw [List.filterMap_cons_some (by rw [hpn]; rfl),
          List.filterMap_cons_some (by rw [hpn]; rfl),
          List.filter_cons_of_pos (by simpa using hq)]
        rw [ih]
    · rw [List.filter_cons_of_neg hq]
      cases hpn : parseStandardChars nm with
      | none =>
        rw [List.filterMap_cons_none (by rw [hpn]; rfl)]
        exact ih
      | some mm =>
        rw [List.filterMap_cons_some (by rw [hpn]; rfl),
          List.filter_cons_of_neg (by simpa using hq)]
        exact ih

/-- The same-sheet index distributes over list append. -/
theorem sse_append (l1 l2 : List Name) (d s : Name) :
    sameSheetEntries (l1 ++ l2) d s =
      sameSheetEntries l1 d s ++ sameSheetEntries l2 d s := by
  rw [sameSheetEntries, sameDocEntries, iter_append, parse_prefixed,
    List.filterMap_append, List.filter_append]
  rfl

/-- The same-sheet index commutes with a name filter on the directory. -/
theorem sse_filter (l : List Name) (q : Name → Bool) (d s : Name) :
    sameSheetEntries (l.filter q) d s =
      (sameSheetEntries l d s).filter fun e => q e.nm := by
  rw [sameSheetEntries, sameDocEntries, iter_filter, parse_prefixed_filter,
    List.filter_filter, sameSheetEntries, sameDocEntries,
    List.filter_filter]
  exact List.filter_congr fun x _ => Bool.and_comm _ _

/-- The same-sheet index of a singleton directory holding the parsed
candidate is the candidate's entry. -/
theorem sse_single {name : Name} {dn : DrawingName}
    (hp : parseStandardChars name = some dn) :
    sameSheetEntries [name] (docnoOf dn) dn.sheet = [mkEntry name dn] := by
  rw [sameSheetEntries, sameDocEntries, iter_single hp, parse_prefixed,
    List.filterMap_cons_some (by rw [hp]; rfl)]
  simp [mkEntry]

/-! ## C1: counting at the maximum revision -/

/-- Appending an entry strictly above every revision makes it the
maximum. -/
theorem maxRev?_append_big (es : List Entry) (x : Entry) (r : Nat)
    (h : ∀ e ∈ es, revN e < r) (hx : revN x = r) :
    maxRev? (es ++ [x]) = some r := by
  induction es with
  | nil => simp [maxRev?, hx]
  | cons e t ih =>
    rw [List.cons_append]
    simp only [maxRev?,
      ih fun y hy => h y (List.mem_cons_of_mem e hy)]
    have hlt := h e (List.mem_cons_self e t)
    have hmx : Nat.max (revN e) r = r := by
      rw [natMax_def]
      split <;> omega
    rw [hmx]

/-- Appending an entry strictly above every revision leaves exactly one
entry at the new maximum. -/
theorem count_at_max_strict (es : List Entry) (x : Entry) (r : Nat)
    (h : ∀ e ∈ es, revN e < r) (hx : revN x = r) :
    (match maxRev? (es ++ [x]) with
      | none => 0
      | some m => ((es ++ [x]).filter fun e => revN e == m).length) = 1 := by
  rw [maxRev?_append_big es x r h hx]
  show ((es ++ [x]).filter fun e => revN e == r).length = 1
  rw [List.filter_append]
  have h1 : es.filter (fun e => revN e == r) = [] := by
    rw [List.filter_eq_nil_iff]
    intro e he
    simp only [beq_iff_eq]
    exact Nat.ne_of_lt (h e he)
  have h2 : [x].filter (fun e => revN e == r) = [x] := by
    simp [hx]
  rw [h1, h2]
  rfl

/-- A valid metric letter lands in exactly one measurement group. -/
theorem metric_groups {dn : DrawingName} (hm : checkMetric dn = true) :
    (isMI (Char.toUpper dn.metric) = true ∧
      isDN (Char.toUpper dn.metric) = false) ∨
    (isMI (Char.toUpper dn.metric) = false ∧
      isDN (Char.toUpper dn.metric) = true) := by
  rw [checkMetric] at hm
  have hcase : Char.toUpper dn.metric = 'M' ∨ Char.toUpper dn.metric = 'I' ∨
      Char.toUpper dn.metric = 'D' ∨ Char.toUpper dn.metric = 'N' := by
    simpa using hm
  rcases hcase with h | h | h | h <;> rw [h]
  · exact Or.inl (by decide)
  · exact Or.inl (by decide)
  · exact Or.inr (by decide)
  · exact Or.inr (by decide)

/-- An MI entry is in the opposite group of a DN-group candidate. -/
theorem mem_otherEs_mi {dn : DrawingName} {ss : List Entry} {e : Entry}
    (hg : gMIof dn = false) (he : e ∈ ss) (hmet : isMI e.met = true) :
    e ∈ otherEsOf dn ss := by
  rw [otherEsOf, if_neg (by simp [hg]), ssMIof]
  exact List.mem_filter.mpr ⟨he, hmet⟩

/-- A DN entry is in the opposite group of an MI-group candidate. -/
theorem mem_otherEs_dn {dn : DrawingName} {ss : List Entry} {e : Entry}
    (hg : gMIof dn = true) (he : e ∈ ss) (hmet : isDN e.met = true) :
    e ∈ otherEsOf dn ss := by
  rw [otherEsOf, if_pos hg, ssDNof]
  exact List.mem_filter.mpr ⟨he, hmet⟩

/-- When every same-sheet revision is strictly below the candidate's, the
whole opposite group is demoted: its names all appear in
`to_storico_other`. -/
theorem demOther_contains {dn : DrawingName} {ss : List Entry} {e : Entry}
    (hlt : ∀ x ∈ ss, revN x < newRevN dn) (he : e ∈ otherEsOf dn ss) :
    (demOtherOf dn ss).contains e.nm = true := by
  obtain ⟨m, hm⟩ := maxRev?_isSome_of_mem he
  have hm' : otherMaxOf dn ss = some m := hm
  obtain ⟨e', he', hrev'⟩ := maxRev?_mem hm
  have hmlt : m < newRevN dn := by
    rw [← hrev']
    exact hlt e' (otherEs_subset e' he')
  simp only [demOtherOf, hm']
  rw [if_pos hmlt]
  apply List.elem_eq_true_of_mem
  exact List.mem_map.mpr ⟨e, List.mem_filter.mpr
    ⟨he, by simpa using hlt e (otherEs_subset e he)⟩, rfl⟩

/-- When every same-sheet revision is strictly below the candidate's, the
reconciler falls through every reject branch and accepts with no
`Metrica Diversa` event. -/
theorem decideOn_accept_of_strict (name : Name) {dn : DrawingName}
    {ss : List Entry}
    (hlt : ∀ e ∈ ss, revN e < newRevN dn) :
    decideOn name dn ss =
      .accept none (demSameOf dn ss) (demOtherOf dn ss) := by
  have hnd : ∀ e ∈ ss, ¬(e.nm = name ∧ e.rev = dn.rev) := by
    rintro e he ⟨-, h2⟩
    have h3 := hlt e he
    rw [revN, h2] at h3
    exact absurd h3 (by simp [newRevN])
  have hguard1 : ltOpt (newRevN dn) (otherMaxOf dn ss) = false :=
    ltOpt_false_of_le fun x hx =>
      Nat.le_of_lt (hlt x (otherEs_subset x hx))
  have hguard2 : ltOpt (newRevN dn) (ownMaxOf dn ss) = false :=
    ltOpt_false_of_le fun x hx =>
      Nat.le_of_lt (hlt x (ssOwn_subset x hx))
  have hsrmi : sameRevMIof dn ss = [] := by
    rw [sameRevMIof, List.filter_eq_nil_iff]
    intro x hx
    rw [ssMIof] at hx
    simp only [beq_iff_eq]
    have := hlt x (List.mem_filter.mp hx).1
    omega
  have hsrdn : sameRevDNof dn ss = [] := by
    rw [sameRevDNof, List.filter_eq_nil_iff]
    intro x hx
    rw [ssDNof] at hx
    simp only [beq_iff_eq]
    have := hlt x (List.mem_filter.mp hx).1
    omega
  rw [decideOn, pari_any_false hnd]
  simp only [Bool.false_eq_true, if_false, hguard1, hguard2]
  cases hg : gMIof dn
  · simp only [Bool.false_eq_true, if_false, hsrmi, hsrdn, List.find?]
  · simp only [if_true, hsrdn, hsrmi, List.find?]
    rfl

/-- C1 (counterexample): with `DAM123456R05S01I.tif` already archived,
the candidate `DAM123456R05S01M.tif` takes the informational
`Metrica Diversa` accept — and the pass then leaves **two** MI-group
files of the same `(doc_no, sheet)` at the group's maximum revision 05,
violating the claimed invariant exactly on the accept path the claim
singles out. -/
theorem c1_two_mi_files_at_max_counterexample :
    process_candidate "DAM123456R05S01M.tif".data
        ["DAM123456R05S01I.tif".data] =
      .accept (some "DAM123456R05S01I.tif".data) [] [] ∧
    (runPass "DAM123456R05S01M.tif".data
        ⟨["DAM123456R05S01I.tif".data], [], []⟩).archive =
      ["DAM123456R05S01I.tif".data, "DAM123456R05S01M.tif".data] ∧
    groupCountAtMax (runPass "DAM123456R05S01M.tif".data
        ⟨["DAM123456R05S01I.tif".data], [], []⟩).archive
      "DAM123456".data "01".data true = 2 := by
  decide

/-- C1 (amended): the at-most-one-file-per-group-at-maximum property does
hold on the accept path whenever the new revision strictly exceeds every
archived same-sheet revision: after such a pass, for either measurement
group, at most one live file of that `(doc_no, sheet)` sits at the
group's maximum revision (the candidate's own group holds exactly the new
file there; the opposite group is demoted entirely).  The equal-revision
`Metrica Diversa` accept is excluded — there the claim fails. -/
theorem c1_strict_supersede_unique_at_max
    (dir : List Name) (name : Name) (dn : DrawingName)
    (hp : parseStandardChars name = some dn)
    (hf : checkFormat dn = true) (hl : checkLocation dn = true)
    (hm : checkMetric dn = true)
    (hlt : ∀ e ∈ sameSheetEntries dir (docnoOf dn) dn.sheet,
      revN e < newRevN dn)
    (g : Bool) :
    groupCountAtMax (runPass name ⟨dir, [], []⟩).archive (docnoOf dn)
      dn.sheet g ≤ 1 := by
  have hdec := decideOn_accept_of_strict name hlt
  have hpc : process_candidate name dir = .accept none
      (demSameOf dn (sameSheetEntries dir (docnoOf dn) dn.sheet))
      (demOtherOf dn (sameSheetEntries dir (docnoOf dn) dn.sheet)) :=
    (process_candidate_eq dir hp hf hl hm).trans hdec
  rw [runPass_accept hp hpc]
  simp only [groupCountAtMax, sse_append, sse_filter, sse_single hp]
  rw [List.filter_append]
  by_cases hP : (if g then isMI (Char.toUpper dn.metric)
      else isDN (Char.toUpper dn.metric)) = true
  · rw [List.filter_cons_of_pos (p := fun e => if g then isMI e.met
        else isDN e.met) (a := mkEntry name dn) hP, List.filter_nil]
    have hkept : ∀ e ∈ ((sameSheetEntries dir (docnoOf dn)
        dn.sheet).filter fun e =>
          !((demSameOf dn (sameSheetEntries dir (docnoOf dn)
              dn.sheet)).contains e.nm ||
            (demOtherOf dn (sameSheetEntries dir (docnoOf dn)
              dn.sheet)).contains e.nm ||
            (legacyNames dir (docnoOf dn)).contains e.nm)).filter
          (fun e => if g then isMI e.met else isDN e.met),
        revN e < newRevN dn := by
      intro e he
      exact hlt e (List.mem_filter.mp (List.mem_filter.mp he).1).1
    have hcount := count_at_max_strict _ (mkEntry name dn) (newRevN dn)
      hkept rfl
    exact hcount.le
  · rw [List.filter_cons_of_neg (p := fun e => if g then isMI e.met
        else isDN e.met) (a := mkEntry name dn) hP, List.filter_nil,
      List.append_nil]
    have hnil : ((sameSheetEntries dir (docnoOf dn)
        dn.sheet).filter fun e =>
          !((demSameOf dn (sameSheetEntries dir (docnoOf dn)
              dn.sheet)).contains e.nm ||
            (demOtherOf dn (sameSheetEntries dir (docnoOf dn)
              dn.sheet)).contains e.nm ||
            (legacyNames dir (docnoOf dn)).contains e.nm)).filter
          (fun e => if g then isMI e.met else isDN e.met) = [] := by
      rw [List.filter_eq_nil_iff]
      intro e he hPe
      obtain ⟨hess, hqe⟩ := List.mem_filter.mp he
      have hother : e ∈ otherEsOf dn
          (sameSheetEntries dir (docnoOf dn) dn.sheet) := by
        rcases metric_groups hm with ⟨hmi, hdngrp⟩ | ⟨hmi, hdngrp⟩
        · cases g
          · exact mem_otherEs_dn hmi hess (by simpa using hPe)
          · exact absurd hmi (by simpa using hP)
        · cases g
          · exact absurd hdngrp (by simpa using hP)
          · exact mem_otherEs_mi hmi hess (by simpa using hPe)
      have hcont := demOther_contains hlt hother
      rw [hcont] at hqe
      simp at hqe
    rw [hnil]
    show (match maxRev? ([] : List Entry) with
      | none => 0
      | some m => (([] : List Entry).filter fun e => revN e == m).length)
        ≤ 1
    simp [maxRev?]

/-- Witness for `c1_strict_supersede_unique_at_max`: archive
`{DAM123456R01S01M.tif}`, candidate `DAM123456R02S01M.tif`, checked for
both measurement groups. -/
theorem c1_strict_supersede_unique_at_max_witness :
    groupCountAtMax (runPass "DAM123456R02S01M.tif".data
        ⟨["DAM123456R01S01M.tif".data], [], []⟩).archive
      (docnoOf ⟨'A', 'M', "123456".data, "02".data, "01".data, 'M',
        "tif".data⟩)
      "01".data true ≤ 1 ∧
    groupCountAtMax (runPass "DAM123456R02S01M.tif".data
        ⟨["DAM123456R01S01M.tif".data], [], []⟩).archive
      (docnoOf ⟨'A', 'M', "123456".data, "02".data, "01".data, 'M',
        "tif".data⟩)
      "01".data false ≤ 1 :=
  ⟨c1_strict_supersede_unique_at_max ["DAM123456R01S01M.tif".data]
      "DAM123456R02S01M.tif".data
      ⟨'A', 'M', "123456".data, "02".data, "01".data, 'M', "tif".data⟩
      (by decide) (by decide) (by decide) (by decide) (by decide) true,
   c1_strict_supersede_unique_at_max ["DAM123456R01S01M.tif".data]
      "DAM123456R02S01M.tif".data
      ⟨'A', 'M', "123456".data, "02".data, "01".data, 'M', "tif".data⟩
      (by decide) (by decide) (by decide) (by decide) (by decide) false⟩

end Swarky
